import Mathlib

/-!
# patcher: install/restore patches and their composition

A shallow embedding of the Go package `patcher` (interfaces.go, master.go, env.go, log.go,
setvar.go).

A Go call is modelled as a function from the world before the call to the pair
"panic value, if the call panicked" and "world after the call": a panic does not
undo what the call already did to the world.
-/

namespace patcher

/-! ## Definitions -/

/-- Outcome of a Go call that returns a value: a normal return, or a panic with its value. -/
inductive Outcome (ε α : Type) where
  | ret (a : α)
  | panic (e : ε)

/-- True when the call returned normally. -/
def Outcome.returned {ε α : Type} : Outcome ε α → Bool
  | Outcome.ret _ => true
  | Outcome.panic _ => false

/-- The interface `Patcher` of interfaces.go: two methods acting on the world `σ`.
Each yields the panic value (if it panicked) and the world it leaves.  The `Patcher`
a method returns is its receiver in every implementation and `PatchMaster` discards it. -/
structure Patcher (ε σ : Type) where
  Install : σ → Option ε × σ
  Restore : σ → Option ε × σ

/-- The struct `PatchMaster` of master.go, as it stands at a call: `patches` is the
sequence the slice of the master holds at that time.  The slice itself, whose backing
array the master shares with its caller, is `SliceMaster` below. -/
structure PatchMaster (ε σ : Type) where
  patches : List (Patcher ε σ)

/-- The constructor `NewPatchMaster(patches ...Patcher)`, for the sequence the slice passed
holds at the call; that the slice is kept, not copied, is `NewPatchMasterSlice` below. -/
def NewPatchMaster {ε σ : Type} (patches : List (Patcher ε σ)) : PatchMaster ε σ :=
  { patches := patches }

/-- The loop `for _, patch := range pm.patches { patch.Install() }`: a panic of a
contained patch propagates and ends the loop. -/
def PatchMaster.installLoop {ε σ : Type} : List (Patcher ε σ) → σ → Option ε × σ
  | [], s => (none, s)
  | patch :: rest, s =>
    match patch.Install s with
    | (some e, s1) => (some e, s1)
    | (none, s1) => PatchMaster.installLoop rest s1

/-- The method `(pm *PatchMaster) Install()`: runs the loop, then `return pm`. -/
def PatchMaster.Install {ε σ : Type} (pm : PatchMaster ε σ) (s : σ) :
    Outcome ε (PatchMaster ε σ) × σ :=
  match PatchMaster.installLoop pm.patches s with
  | (some e, s1) => (Outcome.panic e, s1)
  | (none, s1) => (Outcome.ret pm, s1)

/-- The loop `for i := len(pm.patches) - 1; i >= 0; i-- { pm.patches[i].Restore() }`.
The counter `k` is the Go index plus one, so the loop starts at `k = len(pm.patches)`
and ends at `k = 0`. -/
def PatchMaster.restoreLoop {ε σ : Type} (patches : List (Patcher ε σ)) :
    (k : Nat) → k ≤ patches.length → σ → Option ε × σ
  | 0, _, s => (none, s)
  | i + 1, h, s =>
    match (patches.get ⟨i, Nat.lt_of_succ_le h⟩).Restore s with
    | (some e, s1) => (some e, s1)
    | (none, s1) => PatchMaster.restoreLoop patches i (Nat.le_of_succ_le h) s1

/-- The method `(pm *PatchMaster) Restore()`: runs the loop, then `return pm`. -/
def PatchMaster.Restore {ε σ : Type} (pm : PatchMaster ε σ) (s : σ) :
    Outcome ε (PatchMaster ε σ) × σ :=
  match PatchMaster.restoreLoop pm.patches pm.patches.length (Nat.le_refl _) s with
  | (some e, s1) => (Outcome.panic e, s1)
  | (none, s1) => (Outcome.ret pm, s1)

/-- The method `(pm *PatchMaster) Add(patch)`: `pm.patches = append(pm.patches, patch)`
and `return patch`.  The result is the returned patch, the receiver after the call and
the world after the call.  What the append writes into a backing array that other slices
share is `SliceMaster.Add` below. -/
def PatchMaster.Add {ε σ : Type} (pm : PatchMaster ε σ) (patch : Patcher ε σ) (s : σ) :
    Patcher ε σ × PatchMaster ε σ × σ :=
  (patch, { patches := pm.patches ++ [patch] }, s)

/-- Run a list of calls in order; a panic ends the run. -/
def runAll {ε σ : Type} : List (σ → Option ε × σ) → σ → Option ε × σ
  | [], s => (none, s)
  | f :: fs, s =>
    match f s with
    | (some e, s1) => (some e, s1)
    | (none, s1) => runAll fs s1

/-- Every call of the list, run in order from `s`, returns normally. -/
def returnAll {ε σ : Type} : List (σ → Option ε × σ) → σ → Bool
  | [], _ => true
  | f :: fs, s => (f s).1.isNone && returnAll fs (f s).2

/-- No contained patch panics when the patches are installed in index order from `s`. -/
def PatchMaster.installsReturn {ε σ : Type} (pm : PatchMaster ε σ) (s : σ) : Bool :=
  returnAll (pm.patches.map Patcher.Install) s

/-- No contained patch panics when the patches are restored in reverse index order
from `s`. -/
def PatchMaster.restoresReturn {ε σ : Type} (pm : PatchMaster ε σ) (s : σ) : Bool :=
  returnAll (pm.patches.reverse.map Patcher.Restore) s

/-- A method call made on a contained patch, named by the patch's position. -/
inductive Call where
  | Install (i : Nat)
  | Restore (i : Nat)
deriving DecidableEq, Repr

/-- Position of the patch a call was made on. -/
def Call.index : Call → Nat
  | Call.Install i => i
  | Call.Restore i => i

/-- A patch wrapped so that every call made on it is appended to a log kept beside the
world, as `OrderPatcher` of master_test.go does; the wrapped patch then runs as before. -/
def Patcher.recorded {ε σ : Type} (i : Nat) (p : Patcher ε σ) : Patcher ε (σ × List Call) where
  Install := fun w => ((p.Install w.1).1, ((p.Install w.1).2, w.2 ++ [Call.Install i]))
  Restore := fun w => ((p.Restore w.1).1, ((p.Restore w.1).2, w.2 ++ [Call.Restore i]))

/-- Wrap the patches of a sequence, numbering them from `k`. -/
def recordedFrom {ε σ : Type} (k : Nat) : List (Patcher ε σ) → List (Patcher ε (σ × List Call))
  | [] => []
  | p :: ps => p.recorded k :: recordedFrom (k + 1) ps

/-- The master whose patch at index `i` records its calls under the number `i`. -/
def PatchMaster.recorded {ε σ : Type} (pm : PatchMaster ε σ) : PatchMaster ε (σ × List Call) :=
  { patches := recordedFrom 0 pm.patches }

/-- The test double `OrderPatcher` of master_test.go: `Install` appends "Install name" and
`Restore` appends "Restore name" to the shared `ordering`, which is the world here. -/
def OrderPatcher (name : String) : Patcher String (List String) where
  Install := fun ordering => (none, ordering ++ ["Install " ++ name])
  Restore := fun ordering => (none, ordering ++ ["Restore " ++ name])

/-- A patch whose `Install` and `Restore` panic with the given value and leave the world
as it is. -/
def PanicPatcher (e : String) : Patcher String (List String) where
  Install := fun ordering => (some e, ordering)
  Restore := fun ordering => (some e, ordering)

/-- The master of `TestPatchMasterInstall` and `TestPatchMasterRestore`. -/
def orderMaster : PatchMaster String (List String) :=
  NewPatchMaster [OrderPatcher "patch1", OrderPatcher "patch2"]

/-! ### env.go -/

/-- The struct `EnvPatcher` of env.go; a nil `*string` is `none`. -/
structure EnvPatcher where
  name : String
  value : Option String
  original : Option String
  applied : Bool
deriving DecidableEq, Repr, Inhabited

/-- The patch points `setenv`, `lookupenv` and `unsetenv` of env.go (by default
`os.Setenv`, `os.LookupEnv` and `os.Unsetenv`), acting on a world `Ω`.  `setenv` and
`unsetenv` yield the error they return (`none` for a nil error); `lookupenv` yields the
pair of the value and the presence flag. -/
structure EnvOps (ε Ω : Type) where
  setenv : String → String → Ω → Option ε × Ω
  lookupenv : String → Ω → (String × Bool) × Ω
  unsetenv : String → Ω → Option ε × Ω

/-- The helper `setEnv(name string, value *string)`: the error of the operation it ran,
if any, is the value it panics with. -/
def setEnv {ε Ω : Type} (ops : EnvOps ε Ω) (name : String) (value : Option String) (w : Ω) :
    Option ε × Ω :=
  match value with
  | none =>
    match ops.lookupenv name w with
    | ((_, true), w1) => ops.unsetenv name w1
    | ((_, false), w1) => (none, w1)
  | some v => ops.setenv name v w

/-- The constructor `SetEnv(name, value string)`. -/
def SetEnv (name value : String) : EnvPatcher :=
  { name := name, value := some value, original := none, applied := false }

/-- The constructor `UnsetEnv(name string)`. -/
def UnsetEnv (name : String) : EnvPatcher :=
  { name := name, value := none, original := none, applied := false }

/-- The method `(ep *EnvPatcher) Install()`.  The result is the panic value (if any), the
receiver after the call, which is also the `Patcher` the call returns, and the world
after the call. -/
def EnvPatcher.Install {ε Ω : Type} (ops : EnvOps ε Ω) (ep : EnvPatcher) (w : Ω) :
    Option ε × EnvPatcher × Ω :=
  if ep.applied then (none, ep, w)
  else
    match ops.lookupenv ep.name w with
    | ((value, ok), w1) =>
      let ep1 : EnvPatcher := { ep with original := if ok then some value else none }
      match setEnv ops ep1.name ep1.value w1 with
      | (some e, w2) => (some e, ep1, w2)
      | (none, w2) => (none, { ep1 with applied := true }, w2)

/-- The method `(ep *EnvPatcher) Restore()`, with the result laid out as for `Install`. -/
def EnvPatcher.Restore {ε Ω : Type} (ops : EnvOps ε Ω) (ep : EnvPatcher) (w : Ω) :
    Option ε × EnvPatcher × Ω :=
  if ep.applied then
    match setEnv ops ep.name ep.original w with
    | (some e, w1) => (some e, ep, w1)
    | (none, w1) => (none, { ep with applied := false }, w1)
  else (none, ep, w)

/-- Two method calls on the same patcher, one after the other: a panic of the first call
propagates, so the second call is not made. -/
def EnvPatcher.andThen {ε Ω : Type}
    (first second : EnvPatcher → Ω → Option ε × EnvPatcher × Ω)
    (ep : EnvPatcher) (w : Ω) : Option ε × EnvPatcher × Ω :=
  match first ep w with
  | (some e, ep1, w1) => (some e, ep1, w1)
  | (none, ep1, w1) => second ep1 w1

/-- A call made on one of the patch points, with what it returned. -/
inductive EnvCall (ε : Type) where
  | setenv (name value : String) (err : Option ε)
  | lookupenv (name : String) (value : String) (ok : Bool)
  | unsetenv (name : String) (err : Option ε)
deriving DecidableEq, Repr

/-- The error a call on `setenv` or `unsetenv` returned. -/
def EnvCall.err {ε : Type} : EnvCall ε → Option ε
  | EnvCall.setenv _ _ e => e
  | EnvCall.lookupenv _ _ _ => none
  | EnvCall.unsetenv _ e => e

/-- Patch points wrapped so that every call is appended to a log kept beside the world,
as the doubles of env_test.go note that they were called; the wrapped operation then
runs as before. -/
def EnvOps.recorded {ε Ω : Type} (ops : EnvOps ε Ω) : EnvOps ε (Ω × List (EnvCall ε)) where
  setenv := fun n v w =>
    ((ops.setenv n v w.1).1,
      ((ops.setenv n v w.1).2, w.2 ++ [EnvCall.setenv n v (ops.setenv n v w.1).1]))
  lookupenv := fun n w =>
    ((ops.lookupenv n w.1).1,
      ((ops.lookupenv n w.1).2,
        w.2 ++ [EnvCall.lookupenv n (ops.lookupenv n w.1).1.1 (ops.lookupenv n w.1).1.2]))
  unsetenv := fun n w =>
    ((ops.unsetenv n w.1).1,
      ((ops.unsetenv n w.1).2, w.2 ++ [EnvCall.unsetenv n (ops.unsetenv n w.1).1]))

/-- What the patch points must do for the world to hold an environment, read by `get`
(`none` for an absent variable): `lookupenv` reports it and changes none of it, and a
`setenv` or `unsetenv` that returns no error sets or removes the one variable. -/
structure EnvOps.Lawful {ε Ω : Type} (ops : EnvOps ε Ω) (get : Ω → String → Option String) :
    Prop where
  lookupenv_get : ∀ n w, get (ops.lookupenv n w).2 = get w
  lookupenv_ok : ∀ n w, (ops.lookupenv n w).1.2 = (get w n).isSome
  lookupenv_value : ∀ n w v, get w n = some v → (ops.lookupenv n w).1.1 = v
  setenv_get : ∀ n v w, (ops.setenv n v w).1 = none →
    ∀ m, get (ops.setenv n v w).2 m = if m = n then some v else get w m
  unsetenv_get : ∀ n w, (ops.unsetenv n w).1 = none →
    ∀ m, get (ops.unsetenv n w).2 m = if m = n then none else get w m

/-- The process environment: the value of each variable, `none` when it is absent. -/
abbrev Environ : Type := String → Option String

/-- The environment in which no variable is present. -/
def Environ.empty : Environ := fun _ => none

/-- A key or value the operating system refuses (`EINVAL`): an empty key, a key holding
`=` or a NUL byte, a value holding a NUL byte. -/
def osInvalid (key value : String) : Bool :=
  key.data.isEmpty || key.data.any (fun c => c == '=' || c == Char.ofNat 0)
    || value.data.any (fun c => c == Char.ofNat 0)

/-- The default patch points: `os.Setenv`, `os.LookupEnv` and `os.Unsetenv` of the Go
standard library on a Unix system, acting on the process environment. -/
def osEnv : EnvOps String Environ where
  setenv := fun key value env =>
    if osInvalid key value then (some "setenv: invalid argument", env)
    else (none, fun m => if m = key then some value else env m)
  lookupenv := fun key env => (((env key).getD "", (env key).isSome), env)
  unsetenv := fun key env => (none, fun m => if m = key then none else env m)

/-- World of a program that holds `EnvPatcher` objects: the world of the patch points,
and the object found at each address. -/
structure EnvWorld (Ω : Type) where
  env : Ω
  heap : Nat → EnvPatcher

/-- The pointer `*EnvPatcher` to the object at address `a`, as a `Patcher`: a call runs
the method on that object and stores the receiver back. -/
def EnvPatcher.ref {ε Ω : Type} (ops : EnvOps ε Ω) (a : Nat) : Patcher ε (EnvWorld Ω) where
  Install := fun w =>
    ((EnvPatcher.Install ops (w.heap a) w.env).1,
      { env := (EnvPatcher.Install ops (w.heap a) w.env).2.2,
        heap := Function.update w.heap a (EnvPatcher.Install ops (w.heap a) w.env).2.1 })
  Restore := fun w =>
    ((EnvPatcher.Restore ops (w.heap a) w.env).1,
      { env := (EnvPatcher.Restore ops (w.heap a) w.env).2.2,
        heap := Function.update w.heap a (EnvPatcher.Restore ops (w.heap a) w.env).2.1 })

/-- A fresh patcher on `name`: `SetEnv(name, v)` for `some v`, `UnsetEnv(name)` for `none`. -/
def EnvPatcher.fresh (name : String) (desired : Option String) : EnvPatcher :=
  match desired with
  | some v => SetEnv name v
  | none => UnsetEnv name

/-- The world right after the constructor calls `cs` (name and desired value of each):
the patcher of the call number `i` is the object at address `i`. -/
def EnvWorld.constructed {Ω : Type} (env : Ω) (cs : List (String × Option String)) :
    EnvWorld Ω :=
  { env := env,
    heap := fun a => ((cs.map fun c => EnvPatcher.fresh c.1 c.2)[a]?).getD default }

/-- The master `NewPatchMaster(list)` of the patchers constructed by `cs`. -/
def envMaster {ε Ω : Type} (ops : EnvOps ε Ω) (cs : List (String × Option String)) :
    PatchMaster ε (EnvWorld Ω) :=
  NewPatchMaster ((List.range cs.length).map (EnvPatcher.ref ops))

/-- The environment of the scenario in which `ENV` holds "original". -/
def envOriginal : Environ := fun m => if m = "ENV" then some "original" else none

/-- Constructor calls of a scenario: `SetEnv("ENV", "value")`, `UnsetEnv("ENV")` and
`SetEnv("HOME", "")`, two of them on the same variable. -/
def envCalls : List (String × Option String) :=
  [("ENV", some "value"), ("ENV", none), ("HOME", some "")]

/-! ### log.go -/

/-- The struct `LogPatcher` of log.go.  An `io.Writer` is `some` writer of `W`, or `none`
for the nil interface. -/
structure LogPatcher (W : Type) where
  value : Option W
  original : Option W
  applied : Bool
deriving DecidableEq, Repr, Inhabited

/-- The constructor `Log(value io.Writer)`. -/
def Log {W : Type} (value : Option W) : LogPatcher W :=
  { value := value, original := none, applied := false }

/-- The method `(lp *LogPatcher) Install()`.  The world is the output of the default logger:
`log.Writer()` reads it and `log.SetOutput` replaces it.  The result is the receiver
after the call, which is also the `Patcher` the call returns, and the output after the
call. -/
def LogPatcher.Install {W : Type} (lp : LogPatcher W) (out : Option W) :
    LogPatcher W × Option W :=
  if lp.applied then (lp, out)
  else ({ lp with original := out, applied := true }, lp.value)

/-- The method `(lp *LogPatcher) Restore()`, with the result laid out as for `Install`. -/
def LogPatcher.Restore {W : Type} (lp : LogPatcher W) (out : Option W) :
    LogPatcher W × Option W :=
  if lp.applied then ({ lp with applied := false }, lp.original)
  else (lp, out)

/-! ### setvar.go -/

/-- What package reflect tells about the types of the program: whether a type is an
interface type (`Kind() == reflect.Interface`), whether a value of one type may be
assigned to a variable of another (`Type.AssignableTo`), and how a type is printed
(`Type.String`). -/
structure GoTypes (Ty : Type) where
  isInterface : Ty → Bool
  assignableTo : Ty → Ty → Bool
  name : Ty → String

/-- A value together with its dynamic type, which is never an interface type: what a
non-nil `interface{}` holds. -/
structure Dyn (Ty D : Type) where
  type : Ty
  data : D
deriving DecidableEq, Repr

/-- A `reflect.Value` that does not refer to a variable: `some v` for a value, `none` for
the zero `Value`, for which `IsValid()` is false. -/
abbrev Value (Ty D : Type) : Type := Option (Dyn Ty D)

/-- What a storage cell holds: a cell of a type that is not an interface type holds data
of that type (which may be a nil pointer or a nil function); a cell of an interface type
holds an interface value, `none` when it is nil. -/
inductive Contents (Ty D : Type) where
  | raw (data : D)
  | boxed (v : Option (Dyn Ty D))
deriving DecidableEq, Repr

/-- A storage cell: a variable of the program, with its static type. -/
structure Cell (Ty D : Type) where
  type : Ty
  contents : Contents Ty D
deriving DecidableEq, Repr

/-- A cell holds what its type allows: an interface value in a cell of an interface type,
nil or of a type assignable to it, and plain data otherwise. -/
def Cell.wellFormed {Ty D : Type} (T : GoTypes Ty) (c : Cell Ty D) : Bool :=
  match c.contents with
  | Contents.raw _ => !T.isInterface c.type
  | Contents.boxed none => T.isInterface c.type
  | Contents.boxed (some v) => T.isInterface c.type && T.assignableTo v.type c.type

/-- The value a panic of setvar.go carries: a string passed to `panic` by `SetVar`, the
`*reflect.ValueError` of a method called on the zero `Value`, or the panic of
`reflect.Value.Set` for a value that is not assignable. -/
inductive SetVarPanic where
  | message (text : String)
  | valueError (method : String)
  | notAssignable (valueType cellType : String)
deriving DecidableEq, Repr

/-- The call `reflect.ValueOf(v.Interface())` on the `Value` of a cell: `Interface` of a
cell of an interface type yields the interface value inside it, so that `ValueOf` of a
nil one is the zero `Value`; for another cell it yields the data with the cell's type. -/
def Cell.valueOfInterface {Ty D : Type} (c : Cell Ty D) : Value Ty D :=
  match c.contents with
  | Contents.raw d => some { type := c.type, data := d }
  | Contents.boxed v => v

/-- The call `v.Set(x)` on the `Value` of a cell: it panics on the zero `Value` and on a
value whose type is not assignable to the cell's type; otherwise the cell holds the value,
kept with its dynamic type in a cell of an interface type. -/
def Cell.Set {Ty D : Type} (T : GoTypes Ty) (c : Cell Ty D) (x : Value Ty D) :
    Except SetVarPanic (Cell Ty D) :=
  match x with
  | none => Except.error (SetVarPanic.valueError "reflect.Value.Set")
  | some v =>
    if T.assignableTo v.type c.type then
      if T.isInterface c.type then Except.ok { c with contents := Contents.boxed (some v) }
      else Except.ok { c with contents := Contents.raw v.data }
    else Except.error (SetVarPanic.notAssignable (T.name v.type) (T.name c.type))

/-- The struct `VariableSetter` of setvar.go.  The field `var` is the field `variable` of
the source (a reserved word here): the `Value` of a cell, given by the address of the cell
(`none` for the zero `Value`). -/
structure VariableSetter (Ty D : Type) where
  var : Option Nat
  value : Value Ty D
  original : Value Ty D
  applied : Bool
deriving DecidableEq, Repr

/-- The first argument of `SetVar`, an `interface{}`: nil, a value that is not a pointer,
a nil pointer (to a cell of the given type), or a pointer to the cell at an address. -/
inductive Target (Ty D : Type) where
  | nil
  | notPointer (v : Dyn Ty D)
  | nilPointer (elem : Ty)
  | pointer (addr : Nat)
deriving DecidableEq, Repr

/-- The constructor `SetVar(variable, value interface{})`, its first argument being
`target` here.  The world is the cells of the program; the result is the setter or the panic value, and the cells after the call. -/
def SetVar {Ty D : Type} (T : GoTypes Ty) (target : Target Ty D) (value : Option (Dyn Ty D))
    (cells : Nat → Cell Ty D) : Except SetVarPanic (VariableSetter Ty D) × (Nat → Cell Ty D) :=
  match target with
  | Target.nil => (Except.error (SetVarPanic.valueError "reflect.Value.Type"), cells)
  | Target.notPointer _ =>
    (Except.error (SetVarPanic.message "cannot set variable passed to SetVar!"), cells)
  | Target.nilPointer _ => (Except.error (SetVarPanic.valueError "reflect.Value.Type"), cells)
  | Target.pointer addr =>
    match value with
    | none => (Except.error (SetVarPanic.valueError "reflect.Value.Type"), cells)
    | some val =>
      if T.assignableTo val.type (cells addr).type then
        (Except.ok { var := some addr, value := some val, original := none,
                     applied := false }, cells)
      else
        (Except.error (SetVarPanic.message
          ("cannot assign " ++ T.name val.type ++ " type to variable type "
            ++ T.name (cells addr).type)), cells)

/-- The method `(vs *VariableSetter) Install()`.  The result is the panic value (if any),
the receiver after the call, which is also the `Patcher` the call returns, and the cells
after the call. -/
def VariableSetter.Install {Ty D : Type} (T : GoTypes Ty) (vs : VariableSetter Ty D)
    (cells : Nat → Cell Ty D) : Option SetVarPanic × VariableSetter Ty D × (Nat → Cell Ty D) :=
  if vs.applied then (none, vs, cells)
  else
    match vs.var with
    | none => (some (SetVarPanic.valueError "reflect.Value.Interface"), vs, cells)
    | some addr =>
      let vs1 : VariableSetter Ty D := { vs with original := (cells addr).valueOfInterface }
      match (cells addr).Set T vs1.value with
      | Except.error e => (some e, vs1, cells)
      | Except.ok c => (none, { vs1 with applied := true }, Function.update cells addr c)

/-- The method `(vs *VariableSetter) Restore()`, with the result laid out as for
`Install`. -/
def VariableSetter.Restore {Ty D : Type} (T : GoTypes Ty) (vs : VariableSetter Ty D)
    (cells : Nat → Cell Ty D) : Option SetVarPanic × VariableSetter Ty D × (Nat → Cell Ty D) :=
  if vs.applied then
    match vs.var with
    | none => (some (SetVarPanic.valueError "reflect.Value.Set"), vs, cells)
    | some addr =>
      match (cells addr).Set T vs.original with
      | Except.error e => (some e, vs, cells)
      | Except.ok c => (none, { vs with applied := false }, Function.update cells addr c)
  else (none, vs, cells)

/-- Two method calls on the same receiver, one after the other: a panic of the first call
propagates, so the second call is not made. -/
def callThen {ε ρ σ : Type} (first second : ρ → σ → Option ε × ρ × σ) (r : ρ) (s : σ) :
    Option ε × ρ × σ :=
  match first r s with
  | (some e, r1, s1) => (some e, r1, s1)
  | (none, r1, s1) => second r1 s1

/-- A call made on a `VariableSetter`. -/
inductive Op where
  | Install
  | Restore
deriving DecidableEq, Repr

/-- A sequence of `Install` and `Restore` calls on one setter; a panic ends it. -/
def VariableSetter.run {Ty D : Type} (T : GoTypes Ty) :
    List Op → VariableSetter Ty D → (Nat → Cell Ty D) →
      Option SetVarPanic × VariableSetter Ty D × (Nat → Cell Ty D)
  | [], vs, cells => (none, vs, cells)
  | op :: ops, vs, cells =>
    match (match op with
        | Op.Install => VariableSetter.Install T vs cells
        | Op.Restore => VariableSetter.Restore T vs cells) with
    | (some e, vs1, cells1) => (some e, vs1, cells1)
    | (none, vs1, cells1) => VariableSetter.run T ops vs1 cells1

/-- The types met in setvar_test.go and in the scenarios: `string`, `int`, `func() error`,
`func() (int, error)`, the interface type `io.Writer` and `*bytes.Buffer`, which
implements it. -/
inductive SampleType where
  | string
  | int
  | funcError
  | funcIntError
  | ioWriter
  | bytesBuffer
deriving DecidableEq, Repr

/-- What package reflect tells about the sample types. -/
def sampleTypes : GoTypes SampleType where
  isInterface := fun t => t == SampleType.ioWriter
  assignableTo := fun v t =>
    v == t || (v == SampleType.bytesBuffer && t == SampleType.ioWriter)
  name := fun t =>
    match t with
    | SampleType.string => "string"
    | SampleType.int => "int"
    | SampleType.funcError => "func() error"
    | SampleType.funcIntError => "func() (int, error)"
    | SampleType.ioWriter => "io.Writer"
    | SampleType.bytesBuffer => "*bytes.Buffer"

/-- The cells of `TestVariableSetterInstallBase`: at every address a `string` variable
holding "unpatched". -/
def stringCells : Nat → Cell SampleType String :=
  fun _ => { type := SampleType.string, contents := Contents.raw "unpatched" }

/-- Cells of a program with a nil interface variable, `var w io.Writer`, at every
address. -/
def nilWriterCells : Nat → Cell SampleType String :=
  fun _ => { type := SampleType.ioWriter, contents := Contents.boxed none }

/-- Cells holding a variable of type `func() error` at every address. -/
def funcCells : Nat → Cell SampleType String :=
  fun _ => { type := SampleType.funcError, contents := Contents.raw "func1" }

/-- The setter `SetVar(&variable, "patched")` on the `string` variable at address 0. -/
def stringSetter : VariableSetter SampleType String :=
  { var := some 0, value := some { type := SampleType.string, data := "patched" },
    original := none, applied := false }

/-- The setter `SetVar(&w, buf)` on the `io.Writer` variable at address 0, `buf` being a
`*bytes.Buffer`. -/
def writerSetter : VariableSetter SampleType String :=
  { var := some 0, value := some { type := SampleType.bytesBuffer, data := "buf" },
    original := none, applied := false }

/-! ### A master of patchers of this package -/

/-- The value a panic of a patcher of this package carries: the error `setEnv` panics
with, or a panic of setvar.go. -/
inductive LibPanic (ε : Type) where
  | env (e : ε)
  | setvar (p : SetVarPanic)

/-- World of a program that uses the package: the world of the patch points of env.go,
the cells, the output of the default logger, and the patcher objects found at each
address. -/
structure World (Ω Ty D W : Type) where
  env : Ω
  cells : Nat → Cell Ty D
  logger : Option W
  envPatchers : Nat → EnvPatcher
  varSetters : Nat → VariableSetter Ty D
  logPatchers : Nat → LogPatcher W

/-- The pointer `*EnvPatcher` to the object at address `a` of the world, as a `Patcher`. -/
def EnvPatcher.ptr {ε Ω Ty D W : Type} (ops : EnvOps ε Ω) (a : Nat) :
    Patcher (LibPanic ε) (World Ω Ty D W) where
  Install := fun w =>
    ((EnvPatcher.Install ops (w.envPatchers a) w.env).1.map LibPanic.env,
      { w with
        env := (EnvPatcher.Install ops (w.envPatchers a) w.env).2.2,
        envPatchers :=
          Function.update w.envPatchers a (EnvPatcher.Install ops (w.envPatchers a) w.env).2.1 })
  Restore := fun w =>
    ((EnvPatcher.Restore ops (w.envPatchers a) w.env).1.map LibPanic.env,
      { w with
        env := (EnvPatcher.Restore ops (w.envPatchers a) w.env).2.2,
        envPatchers :=
          Function.update w.envPatchers a (EnvPatcher.Restore ops (w.envPatchers a) w.env).2.1 })

/-- The pointer `*VariableSetter` to the object at address `a` of the world, as a
`Patcher`. -/
def VariableSetter.ptr {ε Ω Ty D W : Type} (T : GoTypes Ty) (a : Nat) :
    Patcher (LibPanic ε) (World Ω Ty D W) where
  Install := fun w =>
    ((VariableSetter.Install T (w.varSetters a) w.cells).1.map LibPanic.setvar,
      { w with
        cells := (VariableSetter.Install T (w.varSetters a) w.cells).2.2,
        varSetters :=
          Function.update w.varSetters a (VariableSetter.Install T (w.varSetters a) w.cells).2.1 })
  Restore := fun w =>
    ((VariableSetter.Restore T (w.varSetters a) w.cells).1.map LibPanic.setvar,
      { w with
        cells := (VariableSetter.Restore T (w.varSetters a) w.cells).2.2,
        varSetters :=
          Function.update w.varSetters a (VariableSetter.Restore T (w.varSetters a) w.cells).2.1 })

/-- The pointer `*LogPatcher` to the object at address `a` of the world, as a `Patcher`. -/
def LogPatcher.ptr {ε Ω Ty D W : Type} (a : Nat) : Patcher (LibPanic ε) (World Ω Ty D W) where
  Install := fun w =>
    (none,
      { w with
        logger := (LogPatcher.Install (w.logPatchers a) w.logger).2,
        logPatchers :=
          Function.update w.logPatchers a (LogPatcher.Install (w.logPatchers a) w.logger).1 })
  Restore := fun w =>
    (none,
      { w with
        logger := (LogPatcher.Restore (w.logPatchers a) w.logger).2,
        logPatchers :=
          Function.update w.logPatchers a (LogPatcher.Restore (w.logPatchers a) w.logger).1 })

/-- The panic value of an outcome, if it is a panic. -/
def Outcome.panicValue {ε α : Type} : Outcome ε α → Option ε
  | Outcome.ret _ => none
  | Outcome.panic e => some e

/-- A `*PatchMaster` as a `Patcher`, which it implements: a master may be a patch of
another master. -/
def PatchMaster.asPatcher {ε σ : Type} (pm : PatchMaster ε σ) : Patcher ε σ where
  Install := fun s => ((pm.Install s).1.panicValue, (pm.Install s).2)
  Restore := fun s => ((pm.Restore s).1.panicValue, (pm.Restore s).2)

/-- The patchers of this package: pointers to an EnvPatcher, a VariableSetter or a
LogPatcher of the world, in whatever state the object is, and masters of such patchers,
nested to any depth. -/
inductive LibraryPatcher {ε Ω Ty D W : Type} (ops : EnvOps ε Ω) (T : GoTypes Ty) :
    Patcher (LibPanic ε) (World Ω Ty D W) → Prop where
  | env (a : Nat) : LibraryPatcher ops T (EnvPatcher.ptr ops a)
  | var (a : Nat) : LibraryPatcher ops T (VariableSetter.ptr T a)
  | log (a : Nat) : LibraryPatcher ops T (LogPatcher.ptr a)
  | master (pm : PatchMaster (LibPanic ε) (World Ω Ty D W)) :
      (∀ p, p ∈ pm.patches → LibraryPatcher ops T p) → LibraryPatcher ops T pm.asPatcher

/-- Every patcher object that is applied in the first world is applied in the second. -/
def World.flagsLe {Ω Ty D W : Type} (w1 w2 : World Ω Ty D W) : Prop :=
  (∀ a, (w1.envPatchers a).applied = true → (w2.envPatchers a).applied = true) ∧
  (∀ a, (w1.varSetters a).applied = true → (w2.varSetters a).applied = true) ∧
  (∀ a, (w1.logPatchers a).applied = true → (w2.logPatchers a).applied = true)

/-- A world of a scenario: `ENV` holds "original", the cells are `string` variables holding
"unpatched", the logger writes to "stderr", and the objects are the fresh patchers
`SetEnv("ENV", "value")`, `SetVar(&variable, "patched")` and `Log(buffer)`. -/
def libWorld : World Environ SampleType String String :=
  { env := envOriginal, cells := stringCells, logger := some "stderr",
    envPatchers := fun _ => SetEnv "ENV" "value",
    varSetters := fun _ => stringSetter,
    logPatchers := fun _ => Log (some "buffer") }

/-- A master of a scenario: an EnvPatcher, a VariableSetter and a nested master that holds
a LogPatcher and the same EnvPatcher again. -/
def libMaster : PatchMaster (LibPanic String) (World Environ SampleType String String) :=
  NewPatchMaster
    [EnvPatcher.ptr osEnv 0, VariableSetter.ptr sampleTypes 0,
      (NewPatchMaster [LogPatcher.ptr 0, EnvPatcher.ptr osEnv 0]).asPatcher]

/-! ### The slice of a master -/

/-- A slice `[]Patcher`: the backing array it points into, its length and its capacity. -/
structure Slice where
  array : Nat
  len : Nat
  cap : Nat
deriving DecidableEq, Repr

/-- The backing arrays of the slices of the program: what each slot of each array holds
(`none` for a nil `Patcher`), and the number the next array allocated gets. -/
structure Arrays (ε σ : Type) where
  slot : Nat → Nat → Option (Patcher ε σ)
  next : Nat

/-- The elements of a slice: the first `len` slots of its backing array. -/
def Slice.elems {ε σ : Type} (mem : Arrays ε σ) (s : Slice) : List (Option (Patcher ε σ)) :=
  (List.range s.len).map (mem.slot s.array)

/-- The built-in `append(s, x)`: with room left in the backing array, it writes `x` into
the array in place, in the slot after the last element, and the result shares the array;
otherwise it copies the elements into a new and larger array, of a capacity chosen by
the runtime (`grow`), and writes `x` there. -/
def Slice.append {ε σ : Type} (grow : Nat → Nat) (mem : Arrays ε σ) (s : Slice)
    (x : Patcher ε σ) : Slice × Arrays ε σ :=
  if s.len < s.cap then
    ({ s with len := s.len + 1 },
      { mem with
        slot := Function.update mem.slot s.array
          (Function.update (mem.slot s.array) s.len (some x)) })
  else
    ({ array := mem.next, len := s.len + 1, cap := max (grow s.cap) (s.len + 1) },
      { slot := Function.update mem.slot mem.next
          (fun i => if i < s.len then mem.slot s.array i
            else if i = s.len then some x else none),
        next := mem.next + 1 })

/-- The struct `PatchMaster` of master.go with its field as the slice it is. -/
structure SliceMaster where
  patches : Slice
deriving DecidableEq, Repr

/-- The constructor `NewPatchMaster(patches ...Patcher)` called on a slice, as in
`NewPatchMaster(base...)`: `&PatchMaster{patches: patches}` keeps the slice of the
caller and makes no copy. -/
def NewPatchMasterSlice (patches : Slice) : SliceMaster :=
  { patches := patches }

/-- The method `(pm *PatchMaster) Add(patch)` on the slice:
`pm.patches = append(pm.patches, patch)` and `return patch`.  The result is the returned
patch, the receiver after the call and the arrays after the call. -/
def SliceMaster.Add {ε σ : Type} (grow : Nat → Nat) (pm : SliceMaster) (patch : Patcher ε σ)
    (mem : Arrays ε σ) : Patcher ε σ × SliceMaster × Arrays ε σ :=
  (patch, { patches := (pm.patches.append grow mem patch).1 },
    (pm.patches.append grow mem patch).2)

/-- Calling `Add` once for each patch of `qs`, in order, with nothing else done in
between; yields the receiver and the arrays afterwards. -/
def SliceMaster.addAll {ε σ : Type} (grow : Nat → Nat) :
    SliceMaster → List (Patcher ε σ) → Arrays ε σ → SliceMaster × Arrays ε σ
  | pm, [], mem => (pm, mem)
  | pm, q :: qs, mem =>
    SliceMaster.addAll grow (pm.Add grow q mem).2.1 qs (pm.Add grow q mem).2.2

/-- A nil `Patcher`: a method called on it panics, with the runtime error `e`. -/
def nilPatcher {ε σ : Type} (e : ε) : Patcher ε σ where
  Install := fun s => (some e, s)
  Restore := fun s => (some e, s)

/-- The master as it stands: the sequence its slice holds in the arrays as they are. -/
def SliceMaster.master {ε σ : Type} (nilError : ε) (pm : SliceMaster) (mem : Arrays ε σ) :
    PatchMaster ε σ :=
  { patches := (pm.patches.elems mem).map fun o => o.getD (nilPatcher nilError) }

/-- The method `(pm *PatchMaster) Install()` on the slice: the loop runs over the sequence
the slice holds when Install is called. -/
def SliceMaster.Install {ε σ : Type} (nilError : ε) (pm : SliceMaster) (mem : Arrays ε σ)
    (s : σ) : Outcome ε SliceMaster × σ :=
  match PatchMaster.installLoop (pm.master nilError mem).patches s with
  | (some e, s1) => (Outcome.panic e, s1)
  | (none, s1) => (Outcome.ret pm, s1)

/-- The method `(pm *PatchMaster) Restore()` on the slice. -/
def SliceMaster.Restore {ε σ : Type} (nilError : ε) (pm : SliceMaster) (mem : Arrays ε σ)
    (s : σ) : Outcome ε SliceMaster × σ :=
  match PatchMaster.restoreLoop (pm.master nilError mem).patches
      (pm.master nilError mem).patches.length (Nat.le_refl _) s with
  | (some e, s1) => (Outcome.panic e, s1)
  | (none, s1) => (Outcome.ret pm, s1)

/-- The arrays of a scenario: `base := make([]Patcher, 2, 4)` holding patch1 and patch2,
as array 0, its two spare slots nil. -/
def baseArrays : Arrays String (List String) :=
  { slot := fun a i =>
      if a = 0 then
        (if i = 0 then some (OrderPatcher "patch1")
          else if i = 1 then some (OrderPatcher "patch2") else none)
      else none,
    next := 1 }

/-- The slice `base` of the scenario: length 2, capacity 4. -/
def baseSlice : Slice := { array := 0, len := 2, cap := 4 }

/-- The arrays after `pm1 := NewPatchMaster(base...)`, `pm2 := NewPatchMaster(base...)`,
`pm1.Add(patch3)` and `pm2.Add(patch4)`, the runtime doubling capacities. -/
def sharedArrays : Arrays String (List String) :=
  ((NewPatchMasterSlice baseSlice).Add (fun c => 2 * c) (OrderPatcher "patch4")
    ((NewPatchMasterSlice baseSlice).Add (fun c => 2 * c) (OrderPatcher "patch3")
      baseArrays).2.2).2.2

/-- The master `pm1` of the scenario after `pm1.Add(patch3)`. -/
def sharedMaster : SliceMaster :=
  ((NewPatchMasterSlice baseSlice).Add (fun c => 2 * c) (OrderPatcher "patch3")
    baseArrays).2.1

/-! ## Theorems -/

/-! ### Running calls one after the other -/

theorem runAll_append {ε σ : Type} (fs gs : List (σ → Option ε × σ)) (s : σ) :
    runAll (fs ++ gs) s =
      match runAll fs s with
      | (some e, s1) => (some e, s1)
      | (none, s1) => runAll gs s1 := by
  induction fs generalizing s with
  | nil => simp [runAll]
  | cons f fs ih =>
    simp only [List.cons_append, runAll]
    rcases hf : f s with ⟨r, s1⟩
    cases r with
    | none => simpa using ih s1
    | some e => simp

theorem runAll_cons_returns {ε σ : Type} (f : σ → Option ε × σ)
    (fs : List (σ → Option ε × σ)) (s : σ) (h : (runAll (f :: fs) s).1 = none) :
    (f s).1 = none ∧ runAll (f :: fs) s = runAll fs (f s).2 := by
  simp only [runAll] at h ⊢
  rcases hf : f s with ⟨r, s1⟩
  rw [hf] at h
  cases r with
  | none => exact ⟨rfl, rfl⟩
  | some e => simp at h

theorem runAll_singleton {ε σ : Type} (f : σ → Option ε × σ) (s : σ) :
    runAll [f] s = f s := by
  unfold runAll
  rcases hf : f s with ⟨r, s1⟩
  cases r <;> rfl

theorem runAll_append_returns {ε σ : Type} (fs gs : List (σ → Option ε × σ)) (s : σ)
    (h : (runAll (fs ++ gs) s).1 = none) :
    (runAll fs s).1 = none ∧ runAll (fs ++ gs) s = runAll gs (runAll fs s).2 := by
  rw [runAll_append] at h ⊢
  rcases hf : runAll fs s with ⟨r, s1⟩
  rw [hf] at h
  cases r with
  | none => exact ⟨rfl, rfl⟩
  | some e => simp at h

theorem returnAll_iff {ε σ : Type} (fs : List (σ → Option ε × σ)) (s : σ) :
    returnAll fs s = true ↔ (runAll fs s).1 = none := by
  induction fs generalizing s with
  | nil => simp [returnAll, runAll]
  | cons f fs ih =>
    simp only [returnAll, runAll, Bool.and_eq_true]
    rcases hf : f s with ⟨r, s1⟩
    cases r with
    | none => simpa using ih s1
    | some e => simp

theorem returnAll_of_forall {ε σ : Type} (fs : List (σ → Option ε × σ))
    (h : ∀ f ∈ fs, ∀ s, (f s).1 = none) (s : σ) : returnAll fs s = true := by
  induction fs generalizing s with
  | nil => rfl
  | cons f fs ih =>
    simp only [returnAll, Bool.and_eq_true]
    refine ⟨?_, ih (fun g hg => h g (List.mem_cons_of_mem _ hg)) _⟩
    rw [h f (List.mem_cons_self _ _) s]
    rfl

/-! ### The loops of PatchMaster -/

theorem installLoop_eq_runAll {ε σ : Type} (ps : List (Patcher ε σ)) (s : σ) :
    PatchMaster.installLoop ps s = runAll (ps.map Patcher.Install) s := by
  induction ps generalizing s with
  | nil => rfl
  | cons p ps ih =>
    simp only [PatchMaster.installLoop, List.map_cons, runAll]
    rcases hp : p.Install s with ⟨r, s1⟩
    cases r with
    | none => simpa using ih s1
    | some e => simp

theorem restoreLoop_eq_runAll {ε σ : Type} (ps : List (Patcher ε σ)) (k : Nat)
    (h : k ≤ ps.length) (s : σ) :
    PatchMaster.restoreLoop ps k h s = runAll (((ps.take k).reverse).map Patcher.Restore) s := by
  induction k generalizing s with
  | zero => simp [PatchMaster.restoreLoop, runAll]
  | succ i ih =>
    have hi : i < ps.length := Nat.lt_of_succ_le h
    have htake : ps.take (i + 1) = ps.take i ++ [ps.get ⟨i, hi⟩] := by
      rw [List.take_succ, List.getElem?_eq_getElem hi]
      rfl
    simp only [PatchMaster.restoreLoop, htake, List.reverse_append, List.reverse_singleton,
      List.singleton_append, List.map_cons, runAll]
    rcases hp : (ps.get ⟨i, hi⟩).Restore s with ⟨r, s1⟩
    cases r with
    | none => simpa using ih (Nat.le_of_succ_le h) s1
    | some e => simp

theorem PatchMaster.restoreLoop_full {ε σ : Type} (ps : List (Patcher ε σ)) (s : σ) :
    PatchMaster.restoreLoop ps ps.length (Nat.le_refl _) s
      = runAll (ps.reverse.map Patcher.Restore) s := by
  rw [restoreLoop_eq_runAll, List.take_length]

theorem PatchMaster.Install_eq_runAll {ε σ : Type} (pm : PatchMaster ε σ) (s : σ) :
    ((pm.Install s).1.returned = true ↔ (runAll (pm.patches.map Patcher.Install) s).1 = none) ∧
    (pm.Install s).2 = (runAll (pm.patches.map Patcher.Install) s).2 := by
  unfold PatchMaster.Install
  rw [installLoop_eq_runAll]
  rcases hr : runAll (pm.patches.map Patcher.Install) s with ⟨r, s1⟩
  cases r <;> simp [Outcome.returned]

theorem PatchMaster.Restore_eq_runAll {ε σ : Type} (pm : PatchMaster ε σ) (s : σ) :
    ((pm.Restore s).1.returned = true ↔
      (runAll (pm.patches.reverse.map Patcher.Restore) s).1 = none) ∧
    (pm.Restore s).2 = (runAll (pm.patches.reverse.map Patcher.Restore) s).2 := by
  unfold PatchMaster.Restore
  rw [PatchMaster.restoreLoop_full]
  rcases hr : runAll (pm.patches.reverse.map Patcher.Restore) s with ⟨r, s1⟩
  cases r <;> simp [Outcome.returned]

/-! ### Recorded calls -/

/-- A call wrapped so that it is logged: the shape of `Patcher.recorded`. -/
theorem runAll_logged {ε σ : Type} (cs : List ((σ → Option ε × σ) × Call)) (s : σ)
    (log : List Call) (h : returnAll (cs.map Prod.fst) s = true) :
    runAll (cs.map fun c => fun w : σ × List Call => ((c.1 w.1).1, ((c.1 w.1).2, w.2 ++ [c.2])))
        (s, log) =
      (none, ((runAll (cs.map Prod.fst) s).2, log ++ cs.map Prod.snd)) := by
  induction cs generalizing s log with
  | nil => simp [runAll]
  | cons c cs ih =>
    simp only [List.map_cons, returnAll, Bool.and_eq_true] at h
    obtain ⟨h1, h2⟩ := h
    simp only [List.map_cons, runAll]
    rcases hc : c.1 s with ⟨r, s1⟩
    rw [hc] at h1 h2
    cases r with
    | some e => simp at h1
    | none =>
      simp only
      rw [ih s1 (log ++ [c.2]) h2]
      simp

/-- Whatever the wrapped calls do, the log of a run is the calls of a leading part of
the list, in order. -/
theorem runAll_logged_prefix {ε σ : Type} (cs : List ((σ → Option ε × σ) × Call)) (s : σ)
    (log : List Call) :
    ∃ m, m ≤ cs.length ∧
      (runAll (cs.map fun c => fun w : σ × List Call =>
          ((c.1 w.1).1, ((c.1 w.1).2, w.2 ++ [c.2]))) (s, log)).2.2 =
        log ++ (cs.map Prod.snd).take m := by
  induction cs generalizing s log with
  | nil => exact ⟨0, Nat.le_refl _, by simp [runAll]⟩
  | cons c cs ih =>
    simp only [List.map_cons, runAll]
    rcases hc : c.1 s with ⟨r, s1⟩
    cases r with
    | some e => exact ⟨1, by simp, by simp⟩
    | none =>
      obtain ⟨m, hm, hlog⟩ := ih s1 (log ++ [c.2])
      refine ⟨m + 1, by simpa using hm, ?_⟩
      simp only [List.length_cons] at hm ⊢
      rw [hlog]
      simp

theorem recordedFrom_eq {ε σ : Type} (k : Nat) (ps : List (Patcher ε σ)) :
    recordedFrom k ps = (ps.enumFrom k).map fun ip => ip.2.recorded ip.1 := by
  induction ps generalizing k with
  | nil => rfl
  | cons p ps ih => simp [recordedFrom, List.enumFrom, ih]

theorem recordedFrom_length {ε σ : Type} (k : Nat) (ps : List (Patcher ε σ)) :
    (recordedFrom k ps).length = ps.length := by
  simp [recordedFrom_eq]

theorem recorded_install_calls {ε σ : Type} (ps : List (Patcher ε σ)) (s : σ)
    (log : List Call) (h : returnAll (ps.map Patcher.Install) s = true) :
    runAll ((recordedFrom 0 ps).map Patcher.Install) (s, log) =
      (none, ((runAll (ps.map Patcher.Install) s).2,
        log ++ (List.range ps.length).map Call.Install)) := by
  have hfst : ((ps.enumFrom 0).map fun ip => (ip.2.Install, Call.Install ip.1)).map Prod.fst
      = ps.map Patcher.Install := by
    rw [List.map_map]
    have : (Prod.fst ∘ fun ip : Nat × Patcher ε σ => (ip.2.Install, Call.Install ip.1))
        = Patcher.Install ∘ Prod.snd := rfl
    rw [this, ← List.map_map, List.enumFrom_map_snd]
  have hsnd : ((ps.enumFrom 0).map fun ip => (ip.2.Install, Call.Install ip.1)).map Prod.snd
      = (List.range ps.length).map Call.Install := by
    rw [List.map_map]
    have : (Prod.snd ∘ fun ip : Nat × Patcher ε σ => (ip.2.Install, Call.Install ip.1))
        = Call.Install ∘ Prod.fst := rfl
    rw [this, ← List.map_map, List.enumFrom_map_fst, List.range_eq_range']
  have key := runAll_logged ((ps.enumFrom 0).map fun ip => (ip.2.Install, Call.Install ip.1))
    s log (by rw [hfst]; exact h)
  rw [hfst, hsnd] at key
  rw [← key, recordedFrom_eq, List.map_map, List.map_map]
  rfl

theorem recorded_restore_calls {ε σ : Type} (ps : List (Patcher ε σ)) (s : σ)
    (log : List Call) (h : returnAll (ps.reverse.map Patcher.Restore) s = true) :
    runAll ((recordedFrom 0 ps).reverse.map Patcher.Restore) (s, log) =
      (none, ((runAll (ps.reverse.map Patcher.Restore) s).2,
        log ++ (List.range ps.length).reverse.map Call.Restore)) := by
  have hfst : ((ps.enumFrom 0).reverse.map fun ip => (ip.2.Restore, Call.Restore ip.1)).map
      Prod.fst = ps.reverse.map Patcher.Restore := by
    rw [List.map_map]
    have : (Prod.fst ∘ fun ip : Nat × Patcher ε σ => (ip.2.Restore, Call.Restore ip.1))
        = Patcher.Restore ∘ Prod.snd := rfl
    rw [this, ← List.map_map, List.map_reverse, List.enumFrom_map_snd]
  have hsnd : ((ps.enumFrom 0).reverse.map fun ip => (ip.2.Restore, Call.Restore ip.1)).map
      Prod.snd = (List.range ps.length).reverse.map Call.Restore := by
    rw [List.map_map]
    have : (Prod.snd ∘ fun ip : Nat × Patcher ε σ => (ip.2.Restore, Call.Restore ip.1))
        = Call.Restore ∘ Prod.fst := rfl
    rw [this, ← List.map_map, List.map_reverse, List.enumFrom_map_fst, List.range_eq_range']
  have key := runAll_logged
    ((ps.enumFrom 0).reverse.map fun ip => (ip.2.Restore, Call.Restore ip.1))
    s log (by rw [hfst]; exact h)
  rw [hfst, hsnd] at key
  rw [← key, recordedFrom_eq, ← List.map_reverse, List.map_map, List.map_map]
  rfl

/-! ### PatchMaster -/

theorem PatchMaster.install_of_returns {ε σ : Type} (pm : PatchMaster ε σ) (s : σ)
    (h : pm.installsReturn s = true) :
    pm.Install s = (Outcome.ret pm, (runAll (pm.patches.map Patcher.Install) s).2) := by
  have hret : (runAll (pm.patches.map Patcher.Install) s).1 = none :=
    (returnAll_iff _ _).1 h
  unfold PatchMaster.Install
  rw [installLoop_eq_runAll]
  rcases hr : runAll (pm.patches.map Patcher.Install) s with ⟨r, s1⟩
  rw [hr] at hret
  simp only at hret
  subst hret
  rfl

theorem PatchMaster.recorded_install_of_returns {ε σ : Type} (pm : PatchMaster ε σ) (s : σ)
    (log : List Call) (h : pm.installsReturn s = true) :
    pm.recorded.Install (s, log) =
      (Outcome.ret pm.recorded,
        ((pm.Install s).2, log ++ (List.range pm.patches.length).map Call.Install)) := by
  rw [PatchMaster.install_of_returns pm s h]
  unfold PatchMaster.Install
  rw [installLoop_eq_runAll]
  simp only [PatchMaster.recorded]
  rw [recorded_install_calls pm.patches s log h]

theorem PatchMaster.restore_of_returns {ε σ : Type} (pm : PatchMaster ε σ) (s : σ)
    (h : pm.restoresReturn s = true) :
    pm.Restore s
      = (Outcome.ret pm, (runAll (pm.patches.reverse.map Patcher.Restore) s).2) := by
  have hret : (runAll (pm.patches.reverse.map Patcher.Restore) s).1 = none :=
    (returnAll_iff _ _).1 h
  unfold PatchMaster.Restore
  rw [PatchMaster.restoreLoop_full]
  rcases hr : runAll (pm.patches.reverse.map Patcher.Restore) s with ⟨r, s1⟩
  rw [hr] at hret
  simp only at hret
  subst hret
  rfl

theorem PatchMaster.recorded_restore_of_returns {ε σ : Type} (pm : PatchMaster ε σ) (s : σ)
    (log : List Call) (h : pm.restoresReturn s = true) :
    pm.recorded.Restore (s, log) =
      (Outcome.ret pm.recorded,
        ((pm.Restore s).2, log ++ (List.range pm.patches.length).reverse.map Call.Restore)) := by
  rw [PatchMaster.restore_of_returns pm s h]
  unfold PatchMaster.Restore
  rw [PatchMaster.restoreLoop_full]
  simp only [PatchMaster.recorded]
  rw [recorded_restore_calls pm.patches s log h]

/-- A master whose patches never panic in `Install` installs them all from every world. -/
theorem PatchMaster.installsReturn_of_no_panic {ε σ : Type} (pm : PatchMaster ε σ)
    (h : ∀ p ∈ pm.patches, ∀ s, (p.Install s).1 = none) (s : σ) :
    pm.installsReturn s = true := by
  apply returnAll_of_forall
  intro f hf
  obtain ⟨p, hp, rfl⟩ := List.mem_map.1 hf
  exact h p hp

/-- A master whose patches never panic in `Restore` restores them all from every world. -/
theorem PatchMaster.restoresReturn_of_no_panic {ε σ : Type} (pm : PatchMaster ε σ)
    (h : ∀ p ∈ pm.patches, ∀ s, (p.Restore s).1 = none) (s : σ) :
    pm.restoresReturn s = true := by
  apply returnAll_of_forall
  intro f hf
  obtain ⟨p, hp, rfl⟩ := List.mem_map.1 hf
  exact h p (List.mem_reverse.1 hp)

/-- Whatever the contained patches do, the calls Install makes are Install on a leading
part p0, ..., pm-1 of the sequence, in index order: a panic of a contained patch ends
the loop and the patches after it are not called. -/
theorem PatchMaster.Install_calls_a_leading_part {ε σ : Type} (pm : PatchMaster ε σ) (s : σ)
    (log : List Call) :
    ∃ m, m ≤ pm.patches.length ∧
      (pm.recorded.Install (s, log)).2.2 = log ++ (List.range m).map Call.Install := by
  obtain ⟨m, hm, hlog⟩ := runAll_logged_prefix
    ((pm.patches.enumFrom 0).map fun ip => (ip.2.Install, Call.Install ip.1)) s log
  have hsnd : ((pm.patches.enumFrom 0).map fun ip => (ip.2.Install, Call.Install ip.1)).map
      Prod.snd = (List.range pm.patches.length).map Call.Install := by
    rw [List.map_map]
    have : (Prod.snd ∘ fun ip : Nat × Patcher ε σ => (ip.2.Install, Call.Install ip.1))
        = Call.Install ∘ Prod.fst := rfl
    rw [this, ← List.map_map, List.enumFrom_map_fst, List.range_eq_range']
  simp only [List.length_map, List.enumFrom_length] at hm
  refine ⟨m, hm, ?_⟩
  rw [(PatchMaster.Install_eq_runAll _ _).2]
  simp only [PatchMaster.recorded]
  rw [hsnd, ← List.map_take, List.take_range, Nat.min_eq_left hm] at hlog
  rw [← hlog, recordedFrom_eq, List.map_map, List.map_map]
  rfl

/-- A master whose first patch panics: the panic leaves Install, and the second patch is
not called. -/
theorem PatchMaster.Install_stops_at_a_panic :
    (NewPatchMaster [PanicPatcher "boom", OrderPatcher "patch2"]).recorded.Install ([], [])
      = (Outcome.panic "boom", ([], [Call.Install 0])) := rfl

/-- C1: for every PatchMaster holding the patches p0, ..., pn-1 (n >= 0), when no contained
Install panics, Install returns the master itself with its sequence as it was, and the
calls it makes on the contained patches are exactly Install on p0, then p1, ..., then
pn-1, once each and no Restore; the world is the one the contained Installs leave when
run in that order. -/
theorem PatchMaster.Install_calls_each_patch_once_in_order {ε σ : Type}
    (pm : PatchMaster ε σ) (s : σ) (log : List Call) (h : pm.installsReturn s = true) :
    pm.Install s = (Outcome.ret pm, (runAll (pm.patches.map Patcher.Install) s).2) ∧
    pm.recorded.Install (s, log) =
      (Outcome.ret pm.recorded,
        ((pm.Install s).2, log ++ (List.range pm.patches.length).map Call.Install)) :=
  ⟨PatchMaster.install_of_returns pm s h, PatchMaster.recorded_install_of_returns pm s log h⟩

/-- Witness for C1 on the master of `TestPatchMasterInstall`. -/
theorem PatchMaster.Install_calls_each_patch_once_in_order_witness :
    orderMaster.installsReturn [] = true ∧
    (orderMaster.Install [] =
        (Outcome.ret orderMaster,
          (runAll (orderMaster.patches.map Patcher.Install) []).2) ∧
      orderMaster.recorded.Install ([], []) =
        (Outcome.ret orderMaster.recorded,
          ((orderMaster.Install []).2,
            [] ++ (List.range orderMaster.patches.length).map Call.Install))) :=
  ⟨rfl, PatchMaster.Install_calls_each_patch_once_in_order orderMaster [] [] rfl⟩

/-- C2: for every PatchMaster holding the patches p0, ..., pn-1 (n >= 0), when no contained
Restore panics, Restore returns the master itself and the calls it makes on the contained
patches are exactly Restore on pn-1, then pn-2, ..., then p0, once each and no Install;
the patches are visited in the reverse of the order in which Install visits them. -/
theorem PatchMaster.Restore_calls_each_patch_once_in_reverse {ε σ : Type}
    (pm : PatchMaster ε σ) (s s' : σ) (log : List Call)
    (h : pm.restoresReturn s = true) (h' : pm.installsReturn s' = true) :
    pm.Restore s = (Outcome.ret pm, (runAll (pm.patches.reverse.map Patcher.Restore) s).2) ∧
    pm.recorded.Restore (s, log) =
      (Outcome.ret pm.recorded,
        ((pm.Restore s).2, log ++ (List.range pm.patches.length).reverse.map Call.Restore)) ∧
    (pm.recorded.Restore (s, [])).2.2.map Call.index =
      ((pm.recorded.Install (s', [])).2.2.map Call.index).reverse := by
  refine ⟨PatchMaster.restore_of_returns pm s h,
    PatchMaster.recorded_restore_of_returns pm s log h, ?_⟩
  rw [PatchMaster.recorded_restore_of_returns pm s [] h,
    PatchMaster.recorded_install_of_returns pm s' [] h']
  simp only [List.nil_append, List.map_map, List.map_reverse]
  congr 1

/-- Witness for C2 on the master of `TestPatchMasterRestore`. -/
theorem PatchMaster.Restore_calls_each_patch_once_in_reverse_witness :
    orderMaster.restoresReturn [] = true ∧ orderMaster.installsReturn [] = true ∧
    (orderMaster.Restore [] =
        (Outcome.ret orderMaster,
          (runAll (orderMaster.patches.reverse.map Patcher.Restore) []).2) ∧
      orderMaster.recorded.Restore ([], []) =
        (Outcome.ret orderMaster.recorded,
          ((orderMaster.Restore []).2,
            [] ++ (List.range orderMaster.patches.length).reverse.map Call.Restore)) ∧
      (orderMaster.recorded.Restore ([], [])).2.2.map Call.index =
        ((orderMaster.recorded.Install ([], [])).2.2.map Call.index).reverse) :=
  ⟨rfl, rfl, PatchMaster.Restore_calls_each_patch_once_in_reverse orderMaster [] [] [] rfl rfl⟩

/-- C3: for every PatchMaster with sequence ps and every patch q, Add(q) returns q itself
and leaves the master holding exactly ps followed by q: the length grows by one and the
patches of ps keep their positions.  Add makes no call on any patch: the world, and with
it the log of calls made on recording patches, is left as it was. -/
theorem PatchMaster.Add_appends_and_returns_the_patch {ε σ : Type}
    (pm : PatchMaster ε σ) (q : Patcher ε σ) (s : σ) :
    (pm.Add q s).1 = q ∧
    (pm.Add q s).2.1.patches = pm.patches ++ [q] ∧
    (pm.Add q s).2.1.patches.length = pm.patches.length + 1 ∧
    (∀ i, i < pm.patches.length → (pm.Add q s).2.1.patches[i]? = pm.patches[i]?) ∧
    (pm.Add q s).2.1.patches[pm.patches.length]? = some q ∧
    (pm.Add q s).2.2 = s ∧
    ∀ (k : Nat) (log : List Call),
      (pm.recorded.Add (q.recorded k) (s, log)).2.2 = (s, log) := by
  refine ⟨rfl, rfl, by simp [PatchMaster.Add], ?_, by simp [PatchMaster.Add], rfl,
    fun _ _ => rfl⟩
  intro i hi
  simp [PatchMaster.Add, List.getElem?_append_left hi]

/-! ### setEnv -/

theorem setEnv_recorded_outcome {ε Ω : Type} (ops : EnvOps ε Ω) (name : String)
    (value : Option String) (w : Ω) (log : List (EnvCall ε)) :
    (setEnv ops.recorded name value (w, log)).1 = (setEnv ops name value w).1 ∧
    (setEnv ops.recorded name value (w, log)).2.1 = (setEnv ops name value w).2 := by
  cases value with
  | some v => exact ⟨rfl, rfl⟩
  | none =>
    simp only [setEnv, EnvOps.recorded]
    rcases hl : ops.lookupenv name w with ⟨⟨v, ok⟩, w1⟩
    cases ok <;> simp

theorem setEnv_recorded_log {ε Ω : Type} (ops : EnvOps ε Ω) (name : String)
    (value : Option String) (w : Ω) (log : List (EnvCall ε)) :
    (setEnv ops.recorded name value (w, log)).2.2 =
      log ++
        match value with
        | some v => [EnvCall.setenv name v (ops.setenv name v w).1]
        | none =>
          if (ops.lookupenv name w).1.2 then
            [EnvCall.lookupenv name (ops.lookupenv name w).1.1 true,
              EnvCall.unsetenv name (ops.unsetenv name (ops.lookupenv name w).2).1]
          else [EnvCall.lookupenv name (ops.lookupenv name w).1.1 false] := by
  cases value with
  | some v => rfl
  | none =>
    simp only [setEnv, EnvOps.recorded]
    rcases hl : ops.lookupenv name w with ⟨⟨v, ok⟩, w1⟩
    cases ok <;> simp

/-- C8: for every variable name, the calls setEnv(name, nil) makes on the patch points are
one lookup of that name, followed by exactly one removal of that name when the lookup
reports the variable present and by nothing when it reports it absent, and never a set;
the calls setEnv makes with a non-nil value are exactly one set of (name, value), with
no lookup and no removal. -/
theorem setEnv_calls_on_the_patch_points {ε Ω : Type} (ops : EnvOps ε Ω) (name v : String)
    (w : Ω) (log : List (EnvCall ε)) :
    (setEnv ops.recorded name none (w, log)).2.2 =
      log ++
        (if (ops.lookupenv name w).1.2 then
          [EnvCall.lookupenv name (ops.lookupenv name w).1.1 true,
            EnvCall.unsetenv name (ops.unsetenv name (ops.lookupenv name w).2).1]
        else [EnvCall.lookupenv name (ops.lookupenv name w).1.1 false]) ∧
    (setEnv ops.recorded name (some v) (w, log)).2.2 =
      log ++ [EnvCall.setenv name v (ops.setenv name v w).1] ∧
    (setEnv ops.recorded name none (w, log)).2.1 = (setEnv ops name none w).2 ∧
    (setEnv ops.recorded name (some v) (w, log)).2.1 = (setEnv ops name (some v) w).2 :=
  ⟨setEnv_recorded_log ops name none w log, setEnv_recorded_log ops name (some v) w log,
    (setEnv_recorded_outcome ops name none w log).2,
    (setEnv_recorded_outcome ops name (some v) w log).2⟩

/-- C9: for every name and desired value-or-absent, setEnv panics with the value e if and
only if a set or removal operation it invoked returned the error e, and it returns
normally if and only if every operation it invoked returned no error, which covers the
run that invokes none (unset of an absent variable). -/
theorem setEnv_panics_iff_the_invoked_operation_failed {ε Ω : Type} (ops : EnvOps ε Ω)
    (name : String) (value : Option String) (w : Ω) :
    (∀ e, (setEnv ops name value w).1 = some e ↔
      ∃ c ∈ (setEnv ops.recorded name value (w, [])).2.2, c.err = some e) ∧
    ((setEnv ops name value w).1 = none ↔
      ∀ c ∈ (setEnv ops.recorded name value (w, [])).2.2, c.err = none) ∧
    (setEnv ops name value w).1 =
      (match value with
        | some v => (ops.setenv name v w).1
        | none =>
          if (ops.lookupenv name w).1.2 then (ops.unsetenv name (ops.lookupenv name w).2).1
          else none) := by
  rw [setEnv_recorded_log]
  cases value with
  | some v => simp [setEnv, EnvCall.err]
  | none =>
    simp only [setEnv]
    rcases hl : ops.lookupenv name w with ⟨⟨v, ok⟩, w1⟩
    cases ok <;> simp [EnvCall.err]

/-! ### EnvPatcher -/

theorem EnvPatcher.Install_applied {ε Ω : Type} (ops : EnvOps ε Ω) (ep : EnvPatcher) (w : Ω)
    (h : ep.applied = true) : EnvPatcher.Install ops ep w = (none, ep, w) := by
  simp [EnvPatcher.Install, h]

theorem EnvPatcher.Restore_unapplied {ε Ω : Type} (ops : EnvOps ε Ω) (ep : EnvPatcher) (w : Ω)
    (h : ep.applied = false) : EnvPatcher.Restore ops ep w = (none, ep, w) := by
  simp [EnvPatcher.Restore, h]

theorem EnvPatcher.Install_unapplied {ε Ω : Type} (ops : EnvOps ε Ω) (ep : EnvPatcher) (w : Ω)
    (h : ep.applied = false) :
    EnvPatcher.Install ops ep w =
      ((setEnv ops ep.name ep.value (ops.lookupenv ep.name w).2).1,
        { ep with
          original :=
            if (ops.lookupenv ep.name w).1.2 then some (ops.lookupenv ep.name w).1.1 else none,
          applied := (setEnv ops ep.name ep.value (ops.lookupenv ep.name w).2).1.isNone },
        (setEnv ops ep.name ep.value (ops.lookupenv ep.name w).2).2) := by
  unfold EnvPatcher.Install
  simp only [h, Bool.false_eq_true, if_false]
  rcases hs : setEnv ops ep.name ep.value (ops.lookupenv ep.name w).2 with ⟨r, w2⟩
  cases r <;> simp

theorem EnvPatcher.Restore_applied {ε Ω : Type} (ops : EnvOps ε Ω) (ep : EnvPatcher) (w : Ω)
    (h : ep.applied = true) :
    EnvPatcher.Restore ops ep w =
      ((setEnv ops ep.name ep.original w).1,
        { ep with applied := (setEnv ops ep.name ep.original w).1.isSome },
        (setEnv ops ep.name ep.original w).2) := by
  unfold EnvPatcher.Restore
  simp only [h, if_true]
  rcases hs : setEnv ops ep.name ep.original w with ⟨r, w2⟩
  cases r with
  | none => simp
  | some e =>
    cases ep
    simp_all

theorem EnvPatcher.Install_returns_applied {ε Ω : Type} (ops : EnvOps ε Ω) (ep : EnvPatcher)
    (w : Ω) (h : (EnvPatcher.Install ops ep w).1 = none) :
    (EnvPatcher.Install ops ep w).2.1.applied = true := by
  cases ha : ep.applied with
  | true => rw [EnvPatcher.Install_applied ops ep w ha]; exact ha
  | false =>
    rw [EnvPatcher.Install_unapplied ops ep w ha] at h ⊢
    simp only at h
    simp [h]

theorem EnvPatcher.Restore_returns_unapplied {ε Ω : Type} (ops : EnvOps ε Ω)
    (ep : EnvPatcher) (w : Ω) (h : (EnvPatcher.Restore ops ep w).1 = none) :
    (EnvPatcher.Restore ops ep w).2.1.applied = false := by
  cases ha : ep.applied with
  | false => rw [EnvPatcher.Restore_unapplied ops ep w ha]; exact ha
  | true =>
    rw [EnvPatcher.Restore_applied ops ep w ha] at h ⊢
    simp only at h
    simp [h]

/-- C10: for every EnvPatcher in any state and every environment, calling Install twice in
a row yields the same outcome, patcher and world as calling it once, and so does calling
Restore twice in a row; Install on an applied patcher and Restore on an unapplied one
return at once, with no call on a patch point and the world and every field of the
patcher left as they were. -/
theorem EnvPatcher.Install_and_Restore_are_idempotent {ε Ω : Type} (ops : EnvOps ε Ω)
    (ep : EnvPatcher) (w : Ω) (log : List (EnvCall ε)) :
    EnvPatcher.andThen (EnvPatcher.Install ops) (EnvPatcher.Install ops) ep w = EnvPatcher.Install ops ep w ∧
    EnvPatcher.andThen (EnvPatcher.Restore ops) (EnvPatcher.Restore ops) ep w = EnvPatcher.Restore ops ep w ∧
    EnvPatcher.Install ops.recorded { ep with applied := true } (w, log)
      = (none, { ep with applied := true }, (w, log)) ∧
    EnvPatcher.Restore ops.recorded { ep with applied := false } (w, log)
      = (none, { ep with applied := false }, (w, log)) := by
  refine ⟨?_, ?_, EnvPatcher.Install_applied _ _ _ rfl, EnvPatcher.Restore_unapplied _ _ _ rfl⟩
  · unfold EnvPatcher.andThen
    have h := EnvPatcher.Install_returns_applied ops ep w
    rcases hi : EnvPatcher.Install ops ep w with ⟨r, ep1, w1⟩
    rw [hi] at h
    cases r with
    | some e => rfl
    | none => simp only; exact EnvPatcher.Install_applied ops ep1 w1 (h rfl)
  · unfold EnvPatcher.andThen
    have h := EnvPatcher.Restore_returns_unapplied ops ep w
    rcases hi : EnvPatcher.Restore ops ep w with ⟨r, ep1, w1⟩
    rw [hi] at h
    cases r with
    | some e => rfl
    | none => simp only; exact EnvPatcher.Restore_unapplied ops ep1 w1 (h rfl)

/-! ### EnvPatcher on an environment -/

theorem osEnv_lawful : osEnv.Lawful (fun env => env) where
  lookupenv_get := fun _ _ => rfl
  lookupenv_ok := fun _ _ => rfl
  lookupenv_value := by
    intro n w v h
    simp [osEnv, h]
  setenv_get := by
    intro n v w h m
    by_cases hv : osInvalid n v = true
    · simp [osEnv, hv] at h
    · simp [osEnv, hv]
  unsetenv_get := fun _ _ _ _ => rfl

theorem EnvOps.Lawful.original_eq {ε Ω : Type} {ops : EnvOps ε Ω}
    {get : Ω → String → Option String} (law : ops.Lawful get) (n : String) (w : Ω) :
    (if (ops.lookupenv n w).1.2 then some (ops.lookupenv n w).1.1 else none) = get w n := by
  have hok := law.lookupenv_ok n w
  cases hg : get w n with
  | none => simp [hok, hg]
  | some v => simp [hok, hg, law.lookupenv_value n w v hg]

theorem EnvOps.Lawful.setEnv_get {ε Ω : Type} {ops : EnvOps ε Ω}
    {get : Ω → String → Option String} (law : ops.Lawful get) (n : String)
    (val : Option String) (w : Ω) (hok : (setEnv ops n val w).1 = none) (m : String) :
    get (setEnv ops n val w).2 m = if m = n then val else get w m := by
  cases val with
  | some v => exact law.setenv_get n v w hok m
  | none =>
    have hl := law.lookupenv_ok n w
    have hg := law.lookupenv_get n w
    unfold setEnv at hok ⊢
    rcases hlk : ops.lookupenv n w with ⟨⟨v, ok⟩, w1⟩
    rw [hlk] at hok hl hg
    simp only at hok hl hg ⊢
    cases ok with
    | true =>
      simp only at hok ⊢
      rw [law.unsetenv_get n w1 hok m, hg]
    | false =>
      show get w1 m = if m = n then none else get w m
      rw [hg]
      by_cases hm : m = n
      · subst hm
        cases hgm : get w m with
        | none => simp
        | some x => simp [hgm] at hl
      · simp [hm]

theorem EnvPatcher.andThen_returns {ε Ω : Type}
    (first second : EnvPatcher → Ω → Option ε × EnvPatcher × Ω) (ep : EnvPatcher) (w : Ω)
    (h : (EnvPatcher.andThen first second ep w).1 = none) :
    (first ep w).1 = none ∧
    EnvPatcher.andThen first second ep w = second (first ep w).2.1 (first ep w).2.2 := by
  unfold EnvPatcher.andThen at h ⊢
  rcases hf : first ep w with ⟨r, ep1, w1⟩
  rw [hf] at h
  cases r with
  | none => exact ⟨rfl, rfl⟩
  | some e => simp at h

theorem EnvPatcher.fresh_applied (name : String) (desired : Option String) :
    (EnvPatcher.fresh name desired).applied = false ∧
    (EnvPatcher.fresh name desired).name = name ∧
    (EnvPatcher.fresh name desired).value = desired ∧
    (EnvPatcher.fresh name desired).original = none := by
  cases desired <;> exact ⟨rfl, rfl, rfl, rfl⟩

theorem EnvPatcher.roundtrip_of_unapplied {ε Ω : Type} {ops : EnvOps ε Ω}
    {get : Ω → String → Option String} (law : ops.Lawful get) (ep : EnvPatcher) (w : Ω)
    (hun : ep.applied = false)
    (h : (EnvPatcher.andThen (EnvPatcher.Install ops) (EnvPatcher.Restore ops) ep w).1 = none) :
    (EnvPatcher.Install ops ep w).1 = none ∧
    (∀ m, get (EnvPatcher.Install ops ep w).2.2 m = if m = ep.name then ep.value else get w m) ∧
    (∀ m, get (EnvPatcher.andThen (EnvPatcher.Install ops) (EnvPatcher.Restore ops) ep w).2.2 m
      = get w m) ∧
    (EnvPatcher.andThen (EnvPatcher.Install ops) (EnvPatcher.Restore ops) ep w).2.1.applied
      = false := by
  obtain ⟨hI, heq⟩ := EnvPatcher.andThen_returns _ _ ep w h
  rw [heq] at h ⊢
  have happ := EnvPatcher.Install_returns_applied ops ep w hI
  rw [EnvPatcher.Install_unapplied ops ep w hun] at hI h happ ⊢
  simp only at hI
  have hget1 : ∀ m, get (setEnv ops ep.name ep.value (ops.lookupenv ep.name w).2).2 m
      = if m = ep.name then ep.value else get w m := by
    intro m
    rw [law.setEnv_get ep.name ep.value _ hI m, law.lookupenv_get]
  refine ⟨hI, hget1, ?_, ?_⟩
  · intro m
    rw [EnvPatcher.Restore_applied ops _ _ happ] at h ⊢
    simp only at h ⊢
    rw [law.setEnv_get _ _ _ h m, hget1 m, law.original_eq]
    by_cases hm : m = ep.name
    · simp [hm]
    · simp [hm]
  · exact EnvPatcher.Restore_returns_unapplied ops _ _ h

/-- C6: for every environment, every variable name and every freshly constructed EnvPatcher
on that name (SetEnv with any value, or UnsetEnv), when the underlying set and removal
operations succeed, so that neither call panics, Install makes the variable hold the
desired state and a following Restore leaves the variable, and every other one, with
the presence and value it had before Install, and the patcher unapplied. -/
theorem EnvPatcher.Install_then_Restore_leaves_the_variable_as_before {ε Ω : Type}
    (ops : EnvOps ε Ω) (get : Ω → String → Option String) (law : ops.Lawful get)
    (w : Ω) (name : String) (desired : Option String)
    (h : (EnvPatcher.andThen (EnvPatcher.Install ops) (EnvPatcher.Restore ops)
      (EnvPatcher.fresh name desired) w).1 = none) :
    get (EnvPatcher.Install ops (EnvPatcher.fresh name desired) w).2.2 name = desired ∧
    get (EnvPatcher.andThen (EnvPatcher.Install ops) (EnvPatcher.Restore ops)
      (EnvPatcher.fresh name desired) w).2.2 name = get w name ∧
    (∀ m, get (EnvPatcher.andThen (EnvPatcher.Install ops) (EnvPatcher.Restore ops)
      (EnvPatcher.fresh name desired) w).2.2 m = get w m) ∧
    (EnvPatcher.andThen (EnvPatcher.Install ops) (EnvPatcher.Restore ops)
      (EnvPatcher.fresh name desired) w).2.1.applied = false := by
  obtain ⟨hun, hname, hval, _⟩ := EnvPatcher.fresh_applied name desired
  obtain ⟨_, h1, h2, h3⟩ := EnvPatcher.roundtrip_of_unapplied law _ w hun h
  refine ⟨?_, h2 name, h2, h3⟩
  rw [h1 name, hname, hval]
  simp

/-- Witness for C6: `UnsetEnv("ENV")` where `ENV` holds "original". -/
theorem EnvPatcher.Install_then_Restore_leaves_the_variable_as_before_witness :
    (EnvPatcher.andThen (EnvPatcher.Install osEnv) (EnvPatcher.Restore osEnv)
      (EnvPatcher.fresh "ENV" none) envOriginal).1 = none ∧
    (EnvPatcher.Install osEnv (UnsetEnv "ENV") envOriginal).2.2 "ENV" = none ∧
    (EnvPatcher.andThen (EnvPatcher.Install osEnv) (EnvPatcher.Restore osEnv)
      (UnsetEnv "ENV") envOriginal).2.2 "ENV" = some "original" :=
  ⟨by decide,
    (EnvPatcher.Install_then_Restore_leaves_the_variable_as_before osEnv (fun env => env)
      osEnv_lawful envOriginal "ENV" none (by decide)).1,
    (EnvPatcher.Install_then_Restore_leaves_the_variable_as_before osEnv (fun env => env)
      osEnv_lawful envOriginal "ENV" none (by decide)).2.1⟩

/-- C7: for every variable name that is absent from the environment and every string value
(the empty string included), when the underlying operations succeed, so that neither
call panics, a fresh SetEnv(name, value) patcher makes the variable present with exactly
that value after Install, and after Restore the variable is absent again: lookup reports
it not present, rather than present with an empty value. -/
theorem EnvPatcher.SetEnv_on_an_absent_variable_restores_absence {ε Ω : Type}
    (ops : EnvOps ε Ω) (get : Ω → String → Option String) (law : ops.Lawful get)
    (w : Ω) (name value : String) (habs : get w name = none)
    (h : (EnvPatcher.andThen (EnvPatcher.Install ops) (EnvPatcher.Restore ops)
      (SetEnv name value) w).1 = none) :
    get (EnvPatcher.Install ops (SetEnv name value) w).2.2 name = some value ∧
    get (EnvPatcher.andThen (EnvPatcher.Install ops) (EnvPatcher.Restore ops)
      (SetEnv name value) w).2.2 name = none ∧
    (ops.lookupenv name (EnvPatcher.andThen (EnvPatcher.Install ops) (EnvPatcher.Restore ops)
      (SetEnv name value) w).2.2).1.2 = false := by
  obtain ⟨_, h1, h2, _⟩ := EnvPatcher.roundtrip_of_unapplied law (SetEnv name value) w rfl h
  refine ⟨?_, ?_, ?_⟩
  · rw [h1 name]
    simp [SetEnv]
  · rw [h2 name, habs]
  · rw [law.lookupenv_ok, h2 name, habs]
    rfl

/-- Witness for C7: `SetEnv("ENV", "value")` where `ENV` is unset, and the empty value. -/
theorem EnvPatcher.SetEnv_on_an_absent_variable_restores_absence_witness :
    Environ.empty "ENV" = none ∧
    (EnvPatcher.andThen (EnvPatcher.Install osEnv) (EnvPatcher.Restore osEnv)
      (SetEnv "ENV" "value") Environ.empty).1 = none ∧
    (EnvPatcher.Install osEnv (SetEnv "ENV" "value") Environ.empty).2.2 "ENV" = some "value" ∧
    (EnvPatcher.andThen (EnvPatcher.Install osEnv) (EnvPatcher.Restore osEnv)
      (SetEnv "ENV" "value") Environ.empty).2.2 "ENV" = none ∧
    (EnvPatcher.andThen (EnvPatcher.Install osEnv) (EnvPatcher.Restore osEnv)
      (SetEnv "ENV" "") Environ.empty).2.2 "ENV" = none :=
  ⟨rfl, by decide,
    (EnvPatcher.SetEnv_on_an_absent_variable_restores_absence osEnv (fun env => env)
      osEnv_lawful Environ.empty "ENV" "value" rfl (by decide)).1,
    (EnvPatcher.SetEnv_on_an_absent_variable_restores_absence osEnv (fun env => env)
      osEnv_lawful Environ.empty "ENV" "value" rfl (by decide)).2.1,
    (EnvPatcher.SetEnv_on_an_absent_variable_restores_absence osEnv (fun env => env)
      osEnv_lawful Environ.empty "ENV" "" rfl (by decide)).2.1⟩

/-! ### A master of EnvPatchers -/

theorem EnvPatcher.Install_effect {ε Ω : Type} {ops : EnvOps ε Ω}
    {get : Ω → String → Option String} (law : ops.Lawful get) (ep : EnvPatcher) (w : Ω)
    (hun : ep.applied = false) (hok : (EnvPatcher.Install ops ep w).1 = none) :
    (EnvPatcher.Install ops ep w).2.1
      = { ep with original := get w ep.name, applied := true } ∧
    ∀ m, get (EnvPatcher.Install ops ep w).2.2 m
      = if m = ep.name then ep.value else get w m := by
  rw [EnvPatcher.Install_unapplied ops ep w hun] at hok ⊢
  simp only at hok
  refine ⟨?_, ?_⟩
  · simp only [law.original_eq, hok, Option.isNone_none]
  · intro m
    rw [law.setEnv_get ep.name ep.value _ hok m, law.lookupenv_get]

theorem EnvPatcher.Restore_effect {ε Ω : Type} {ops : EnvOps ε Ω}
    {get : Ω → String → Option String} (law : ops.Lawful get) (ep : EnvPatcher) (w : Ω)
    (hap : ep.applied = true) (hok : (EnvPatcher.Restore ops ep w).1 = none) :
    (EnvPatcher.Restore ops ep w).2.1 = { ep with applied := false } ∧
    ∀ m, get (EnvPatcher.Restore ops ep w).2.2 m
      = if m = ep.name then ep.original else get w m := by
  rw [EnvPatcher.Restore_applied ops ep w hap] at hok ⊢
  simp only at hok
  refine ⟨?_, ?_⟩
  · simp only [hok, Option.isSome_none]
  · intro m
    rw [law.setEnv_get ep.name ep.original _ hok m]

theorem EnvPatcher.refs_roundtrip {ε Ω : Type} {ops : EnvOps ε Ω}
    {get : Ω → String → Option String} (law : ops.Lawful get) :
    ∀ (as : List Nat) (w : EnvWorld Ω), as.Nodup → (∀ a ∈ as, (w.heap a).applied = false) →
      (runAll (as.map fun a => (EnvPatcher.ref ops a).Install) w).1 = none →
      (runAll (as.reverse.map fun a => (EnvPatcher.ref ops a).Restore)
        (runAll (as.map fun a => (EnvPatcher.ref ops a).Install) w).2).1 = none →
      (∀ m, get (runAll (as.reverse.map fun a => (EnvPatcher.ref ops a).Restore)
        (runAll (as.map fun a => (EnvPatcher.ref ops a).Install) w).2).2.env m = get w.env m) ∧
      (∀ a ∈ as, ((runAll (as.reverse.map fun a => (EnvPatcher.ref ops a).Restore)
        (runAll (as.map fun a => (EnvPatcher.ref ops a).Install) w).2).2.heap a).applied
          = false) ∧
      (∀ b, b ∉ as → (runAll (as.reverse.map fun a => (EnvPatcher.ref ops a).Restore)
        (runAll (as.map fun a => (EnvPatcher.ref ops a).Install) w).2).2.heap b = w.heap b)
  | [], w, _, _, _, _ => by simp [runAll]
  | a :: t, w, hnd, hun, hI, hR => by
    obtain ⟨hat, hndt⟩ := List.nodup_cons.1 hnd
    simp only [List.map_cons] at hI hR ⊢
    obtain ⟨hIa, hIeq⟩ := runAll_cons_returns _ _ w hI
    rw [hIeq] at hI hR ⊢
    simp only [List.reverse_cons, List.map_append, List.map_cons, List.map_nil] at hR ⊢
    obtain ⟨hRt, hReq⟩ := runAll_append_returns _ _ _ hR
    rw [hReq, runAll_singleton] at hR ⊢
    have hIa1 : (EnvPatcher.Install ops (w.heap a) w.env).1 = none := hIa
    obtain ⟨hep1, hget1⟩ :=
      EnvPatcher.Install_effect law (w.heap a) w.env (hun a (List.mem_cons_self _ _)) hIa1
    have hwa : ∀ b, b ≠ a → ((EnvPatcher.ref ops a).Install w).2.heap b = w.heap b :=
      fun b hb => Function.update_noteq hb _ _
    have hunt : ∀ b ∈ t, (((EnvPatcher.ref ops a).Install w).2.heap b).applied = false := by
      intro b hb
      have hba : b ≠ a := by
        rintro rfl
        exact hat hb
      rw [hwa b hba]
      exact hun b (List.mem_cons_of_mem _ hb)
    obtain ⟨ih1, ih2, ih3⟩ :=
      EnvPatcher.refs_roundtrip law t ((EnvPatcher.ref ops a).Install w).2 hndt hunt hI hRt
    generalize (runAll (t.reverse.map fun a => (EnvPatcher.ref ops a).Restore)
      (runAll (t.map fun a => (EnvPatcher.ref ops a).Install)
        ((EnvPatcher.ref ops a).Install w).2).2).2 = w2 at hR ih1 ih2 ih3 ⊢
    have hheap : w2.heap a
        = { w.heap a with original := get w.env (w.heap a).name, applied := true } := by
      rw [ih3 a hat]
      show Function.update w.heap a _ a = _
      rw [Function.update_same, hep1]
    have hRa : (EnvPatcher.Restore ops (w2.heap a) w2.env).1 = none := hR
    obtain ⟨hep2, hget2⟩ :=
      EnvPatcher.Restore_effect law (w2.heap a) w2.env (by rw [hheap]) hRa
    refine ⟨?_, ?_, ?_⟩
    · intro m
      show get (EnvPatcher.Restore ops (w2.heap a) w2.env).2.2 m = get w.env m
      rw [hget2 m, hheap, ih1 m]
      show (if m = (w.heap a).name then get w.env (w.heap a).name
        else get (EnvPatcher.Install ops (w.heap a) w.env).2.2 m) = get w.env m
      rw [hget1 m]
      by_cases hm : m = (w.heap a).name
      · simp [hm]
      · simp [hm]
    · intro b hb
      show (Function.update w2.heap a (EnvPatcher.Restore ops (w2.heap a) w2.env).2.1
        b).applied = false
      rcases List.mem_cons.1 hb with hba | hbt
      · rw [hba, Function.update_same, hep2]
      · have hba : b ≠ a := by
          rintro rfl
          exact hat hbt
        rw [Function.update_noteq hba]
        exact ih2 b hbt
    · intro b hb
      have hba : b ≠ a := fun h => hb (h ▸ List.mem_cons_self _ _)
      have hbt : b ∉ t := fun h => hb (List.mem_cons_of_mem _ h)
      show Function.update w2.heap a (EnvPatcher.Restore ops (w2.heap a) w2.env).2.1 b
        = w.heap b
      rw [Function.update_noteq hba, ih3 b hbt, hwa b hba]

theorem EnvWorld.constructed_unapplied {Ω : Type} (env : Ω)
    (cs : List (String × Option String)) (a : Nat) :
    ((EnvWorld.constructed env cs).heap a).applied = false := by
  show (((cs.map fun c => EnvPatcher.fresh c.1 c.2)[a]?).getD default).applied = false
  rw [List.getElem?_map]
  cases cs[a]? with
  | none => rfl
  | some c => exact (EnvPatcher.fresh_applied c.1 c.2).1

/-- C5: for every environment and every list of freshly constructed EnvPatchers (any mix of
SetEnv and UnsetEnv, names may repeat), when the underlying set and removal operations
succeed, so that neither call panics, NewPatchMaster(list).Install() followed by Restore()
leaves every variable with the presence and value it had before Install and leaves
every contained patcher unapplied. -/
theorem PatchMaster.Install_then_Restore_leaves_the_environment_as_before {ε Ω : Type}
    (ops : EnvOps ε Ω) (get : Ω → String → Option String) (law : ops.Lawful get)
    (env : Ω) (cs : List (String × Option String))
    (hI : ((envMaster ops cs).Install (EnvWorld.constructed env cs)).1.returned = true)
    (hR : ((envMaster ops cs).Restore
      ((envMaster ops cs).Install (EnvWorld.constructed env cs)).2).1.returned = true) :
    (∀ m, get ((envMaster ops cs).Restore
      ((envMaster ops cs).Install (EnvWorld.constructed env cs)).2).2.env m = get env m) ∧
    ∀ a, a < cs.length → (((envMaster ops cs).Restore
      ((envMaster ops cs).Install (EnvWorld.constructed env cs)).2).2.heap a).applied
        = false := by
  have hmI : (envMaster ops cs).patches.map Patcher.Install
      = (List.range cs.length).map fun a => (EnvPatcher.ref ops a).Install := by
    simp [envMaster, NewPatchMaster, List.map_map, Function.comp_def]
  have hmR : (envMaster ops cs).patches.reverse.map Patcher.Restore
      = (List.range cs.length).reverse.map fun a => (EnvPatcher.ref ops a).Restore := by
    simp [envMaster, NewPatchMaster, List.map_map, Function.comp_def, List.map_reverse]
  rw [(PatchMaster.Restore_eq_runAll _ _).1, (PatchMaster.Install_eq_runAll _ _).2, hmI, hmR]
    at hR
  rw [(PatchMaster.Install_eq_runAll _ _).1, hmI] at hI
  rw [(PatchMaster.Restore_eq_runAll _ _).2, (PatchMaster.Install_eq_runAll _ _).2, hmI, hmR]
  obtain ⟨h1, h2, _⟩ := EnvPatcher.refs_roundtrip law (List.range cs.length)
    (EnvWorld.constructed env cs) (List.nodup_range _)
    (fun a _ => EnvWorld.constructed_unapplied env cs a) hI hR
  exact ⟨h1, fun a ha => h2 a (List.mem_range.2 ha)⟩

/-- Witness for C5: three patchers, two on the same variable, where `ENV` holds
"original". -/
theorem PatchMaster.Install_then_Restore_leaves_the_environment_as_before_witness :
    ((envMaster osEnv envCalls).Install
      (EnvWorld.constructed envOriginal envCalls)).1.returned = true ∧
    ((envMaster osEnv envCalls).Restore ((envMaster osEnv envCalls).Install
      (EnvWorld.constructed envOriginal envCalls)).2).1.returned = true ∧
    ((∀ m, ((envMaster osEnv envCalls).Restore ((envMaster osEnv envCalls).Install
      (EnvWorld.constructed envOriginal envCalls)).2).2.env m = envOriginal m) ∧
    ∀ a, a < envCalls.length → (((envMaster osEnv envCalls).Restore
      ((envMaster osEnv envCalls).Install
        (EnvWorld.constructed envOriginal envCalls)).2).2.heap a).applied = false) :=
  ⟨by decide, by decide,
    PatchMaster.Install_then_Restore_leaves_the_environment_as_before osEnv (fun env => env)
      osEnv_lawful envOriginal envCalls (by decide) (by decide)⟩

/-! ### Install and Restore of an EnvPatcher, one call at a time -/

/-- C11: for every applied EnvPatcher and whatever the environment holds at the moment of
Restore, when the underlying operation succeeds, so that Restore does not panic, Restore
makes the named variable hold exactly the saved original (present with that value, or
absent), which is the state an earlier Install found, leaves the other variables alone,
and clears the applied flag, the other fields staying as they were. -/
theorem EnvPatcher.Restore_reverts_to_the_captured_state {ε Ω : Type} (ops : EnvOps ε Ω)
    (get : Ω → String → Option String) (law : ops.Lawful get) (ep : EnvPatcher) (w : Ω)
    (hap : ep.applied = true) (hok : (EnvPatcher.Restore ops ep w).1 = none) :
    get (EnvPatcher.Restore ops ep w).2.2 ep.name = ep.original ∧
    (∀ m, m ≠ ep.name → get (EnvPatcher.Restore ops ep w).2.2 m = get w m) ∧
    (EnvPatcher.Restore ops ep w).2.1 = { ep with applied := false } ∧
    ∀ (ep0 : EnvPatcher) (w0 : Ω), ep0.applied = false →
      (EnvPatcher.Install ops ep0 w0).1 = none → ep = (EnvPatcher.Install ops ep0 w0).2.1 →
      get (EnvPatcher.Restore ops ep w).2.2 ep0.name = get w0 ep0.name := by
  obtain ⟨hep, hget⟩ := EnvPatcher.Restore_effect law ep w hap hok
  refine ⟨?_, ?_, hep, ?_⟩
  · rw [hget ep.name]
    simp
  · intro m hm
    rw [hget m]
    simp [hm]
  · intro ep0 w0 hun hI heq
    obtain ⟨hep1, _⟩ := EnvPatcher.Install_effect law ep0 w0 hun hI
    have hname : ep.name = ep0.name := by rw [heq, hep1]
    have horig : ep.original = get w0 ep0.name := by rw [heq, hep1]
    rw [hget ep0.name, hname, horig]
    simp

/-- Witness for C11: the patcher of `TestEnvPatcherRestoreBase`, restored in an environment
in which other code has removed the variable. -/
theorem EnvPatcher.Restore_reverts_to_the_captured_state_witness :
    (EnvPatcher.Restore osEnv
      { name := "ENV", value := none, original := some "original", applied := true }
      Environ.empty).1 = none ∧
    (EnvPatcher.Restore osEnv
      { name := "ENV", value := none, original := some "original", applied := true }
      Environ.empty).2.2 "ENV" = some "original" ∧
    (EnvPatcher.Restore osEnv
      { name := "ENV", value := none, original := some "original", applied := true }
      Environ.empty).2.1
      = { name := "ENV", value := none, original := some "original", applied := false } :=
  ⟨by decide,
    (EnvPatcher.Restore_reverts_to_the_captured_state osEnv (fun env => env) osEnv_lawful
      { name := "ENV", value := none, original := some "original", applied := true }
      Environ.empty rfl (by decide)).1,
    (EnvPatcher.Restore_reverts_to_the_captured_state osEnv (fun env => env) osEnv_lawful
      { name := "ENV", value := none, original := some "original", applied := true }
      Environ.empty rfl (by decide)).2.2.1⟩

/-- C17: for every environment and every unapplied EnvPatcher, when the underlying operation
succeeds, so that Install does not panic, Install stores as the original exactly what
the lookup made before the change reports, the value when the variable is present (the
empty string included) and the absent marker when it is not, then makes the variable
hold the desired state, sets the applied flag and leaves name and desired value as they
were; the patcher returned is the receiver. -/
theorem EnvPatcher.Install_captures_the_state_then_applies {ε Ω : Type} (ops : EnvOps ε Ω)
    (get : Ω → String → Option String) (law : ops.Lawful get) (ep : EnvPatcher) (w : Ω)
    (hun : ep.applied = false) (hok : (EnvPatcher.Install ops ep w).1 = none) :
    (EnvPatcher.Install ops ep w).2.1
      = { ep with original := get w ep.name, applied := true } ∧
    (EnvPatcher.Install ops ep w).2.1.original
      = (if (ops.lookupenv ep.name w).1.2 then some (ops.lookupenv ep.name w).1.1 else none) ∧
    (get w ep.name = some "" → (EnvPatcher.Install ops ep w).2.1.original = some "") ∧
    (get w ep.name = none → (EnvPatcher.Install ops ep w).2.1.original = none) ∧
    get (EnvPatcher.Install ops ep w).2.2 ep.name = ep.value ∧
    (∀ m, m ≠ ep.name → get (EnvPatcher.Install ops ep w).2.2 m = get w m) := by
  obtain ⟨hep, hget⟩ := EnvPatcher.Install_effect law ep w hun hok
  refine ⟨hep, ?_, ?_, ?_, ?_, ?_⟩
  · rw [hep, law.original_eq]
  · intro h
    rw [hep, h]
  · intro h
    rw [hep, h]
  · rw [hget ep.name]
    simp
  · intro m hm
    rw [hget m]
    simp [hm]

/-- Witness for C17: `TestEnvPatcherInstallExists`, where `ENV` holds "original". -/
theorem EnvPatcher.Install_captures_the_state_then_applies_witness :
    (SetEnv "ENV" "value").applied = false ∧
    (EnvPatcher.Install osEnv (SetEnv "ENV" "value") envOriginal).1 = none ∧
    (EnvPatcher.Install osEnv (SetEnv "ENV" "value") envOriginal).2.1
      = { name := "ENV", value := some "value", original := some "original",
          applied := true } ∧
    (EnvPatcher.Install osEnv (SetEnv "ENV" "value") envOriginal).2.2 "ENV"
      = some "value" :=
  ⟨rfl, by decide,
    (EnvPatcher.Install_captures_the_state_then_applies osEnv (fun env => env) osEnv_lawful
      (SetEnv "ENV" "value") envOriginal rfl (by decide)).1,
    (EnvPatcher.Install_captures_the_state_then_applies osEnv (fun env => env) osEnv_lawful
      (SetEnv "ENV" "value") envOriginal rfl (by decide)).2.2.2.2.1⟩

/-! ### LogPatcher -/

/-- C15: for every current sink s of the logger and every desired sink d, Install on the
fresh patcher Log(d) records s as the original, makes d the sink of the logger and marks
the patcher applied; a following Restore, whatever the sink is by then, makes s the sink
again and marks the patcher unapplied; Install on an applied LogPatcher and Restore on
an unapplied one change neither the sink nor any field of the patcher. -/
theorem LogPatcher.Install_and_Restore_swap_the_sink {W : Type} (s d out : Option W)
    (lp : LogPatcher W) :
    LogPatcher.Install (Log d) s = ({ value := d, original := s, applied := true }, d) ∧
    LogPatcher.Restore (LogPatcher.Install (Log d) s).1 (LogPatcher.Install (Log d) s).2
      = ({ value := d, original := s, applied := false }, s) ∧
    LogPatcher.Restore (LogPatcher.Install (Log d) s).1 out
      = ({ value := d, original := s, applied := false }, s) ∧
    LogPatcher.Install { lp with applied := true } out = ({ lp with applied := true }, out) ∧
    LogPatcher.Restore { lp with applied := false } out
      = ({ lp with applied := false }, out) :=
  ⟨rfl, rfl, rfl, rfl, rfl⟩

/-! ### VariableSetter -/

theorem VariableSetter.setter_Install_applied {Ty D : Type} (T : GoTypes Ty)
    (vs : VariableSetter Ty D) (cells : Nat → Cell Ty D) (h : vs.applied = true) :
    VariableSetter.Install T vs cells = (none, vs, cells) := by
  simp [VariableSetter.Install, h]

theorem VariableSetter.setter_Restore_unapplied {Ty D : Type} (T : GoTypes Ty)
    (vs : VariableSetter Ty D) (cells : Nat → Cell Ty D) (h : vs.applied = false) :
    VariableSetter.Restore T vs cells = (none, vs, cells) := by
  simp [VariableSetter.Restore, h]

theorem VariableSetter.setter_Install_returns_applied {Ty D : Type} (T : GoTypes Ty)
    (vs : VariableSetter Ty D) (cells : Nat → Cell Ty D)
    (h : (VariableSetter.Install T vs cells).1 = none) :
    (VariableSetter.Install T vs cells).2.1.applied = true := by
  unfold VariableSetter.Install at h ⊢
  by_cases ha : vs.applied = true
  · simp [ha]
  · simp only [ha] at h ⊢
    cases hv : vs.var with
    | none => simp [hv] at h
    | some addr =>
      simp only [hv] at h ⊢
      cases hs : (cells addr).Set T vs.value with
      | error e => simp [hs] at h
      | ok c => simp

theorem VariableSetter.setter_Restore_returns_unapplied {Ty D : Type} (T : GoTypes Ty)
    (vs : VariableSetter Ty D) (cells : Nat → Cell Ty D)
    (h : (VariableSetter.Restore T vs cells).1 = none) :
    (VariableSetter.Restore T vs cells).2.1.applied = false := by
  unfold VariableSetter.Restore at h ⊢
  by_cases ha : vs.applied = true
  · simp only [ha] at h ⊢
    cases hv : vs.var with
    | none => simp [hv] at h
    | some addr =>
      simp only [hv] at h ⊢
      cases hs : (cells addr).Set T vs.original with
      | error e => simp [hs] at h
      | ok c => simp
  · simp only [ha]
    simpa using ha

theorem callThen_same {ε ρ σ : Type} (method : ρ → σ → Option ε × ρ × σ) (r : ρ) (s : σ)
    (h : (method r s).1 = none →
      method (method r s).2.1 (method r s).2.2 = (none, (method r s).2.1, (method r s).2.2)) :
    callThen method method r s = method r s := by
  unfold callThen
  rcases hm : method r s with ⟨e, r1, s1⟩
  rw [hm] at h
  cases e with
  | some e => rfl
  | none => exact h rfl

/-- C14: for every VariableSetter in any state, Install on an applied setter and Restore on
an unapplied one return at once and leave the cells, the saved original, the applied
flag and the other fields as they were; calling Install twice in a row yields the same
outcome, setter and cells as calling it once, and so does calling Restore twice in a
row. -/
theorem VariableSetter.setter_Install_and_Restore_are_idempotent {Ty D : Type} (T : GoTypes Ty)
    (vs : VariableSetter Ty D) (cells : Nat → Cell Ty D) :
    VariableSetter.Install T { vs with applied := true } cells
      = (none, { vs with applied := true }, cells) ∧
    VariableSetter.Restore T { vs with applied := false } cells
      = (none, { vs with applied := false }, cells) ∧
    callThen (VariableSetter.Install T) (VariableSetter.Install T) vs cells
      = VariableSetter.Install T vs cells ∧
    callThen (VariableSetter.Restore T) (VariableSetter.Restore T) vs cells
      = VariableSetter.Restore T vs cells := by
  refine ⟨VariableSetter.setter_Install_applied T _ cells rfl,
    VariableSetter.setter_Restore_unapplied T _ cells rfl, ?_, ?_⟩
  · apply callThen_same
    intro h
    exact VariableSetter.setter_Install_applied T _ _ (VariableSetter.setter_Install_returns_applied T vs cells h)
  · apply callThen_same
    intro h
    exact VariableSetter.setter_Restore_unapplied T _ _
      (VariableSetter.setter_Restore_returns_unapplied T vs cells h)

/-! ### SetVar -/

/-- The nil arguments, which the claims on `SetVar` leave out: a nil first argument, a nil
pointer as first argument and a nil second argument make `SetVar` panic inside package
reflect, with the error of `Type` called on the zero `Value`. -/
theorem SetVar_nil_arguments {Ty D : Type} (T : GoTypes Ty) (cells : Nat → Cell Ty D)
    (value : Option (Dyn Ty D)) (elem : Ty) (addr : Nat) :
    SetVar T Target.nil value cells
      = (Except.error (SetVarPanic.valueError "reflect.Value.Type"), cells) ∧
    SetVar T (Target.nilPointer elem) value cells
      = (Except.error (SetVarPanic.valueError "reflect.Value.Type"), cells) ∧
    SetVar T (Target.pointer addr) none cells
      = (Except.error (SetVarPanic.valueError "reflect.Value.Type"), cells) :=
  ⟨rfl, rfl, rfl⟩

/-- C13: for every first argument that is not nil and every desired value that is not nil,
SetVar panics with "cannot set variable passed to SetVar!" when the first argument is
not a pointer, panics with "cannot assign <value type> type to variable type <cell
type>" when it points to a cell whose type the type of the desired value is not
assignable to, and succeeds otherwise; in every case the cells are left as they were.
So an `int` for a `string` cell and a `func() (int, error)` for a `func() error` cell
are refused. -/
theorem SetVar_panics_exactly_on_a_bad_target_or_value {Ty D : Type} (T : GoTypes Ty)
    (cells : Nat → Cell Ty D) (v val : Dyn Ty D) (addr : Nat) :
    SetVar T (Target.notPointer v) (some val) cells
      = (Except.error (SetVarPanic.message "cannot set variable passed to SetVar!"), cells) ∧
    SetVar T (Target.pointer addr) (some val) cells
      = ((if T.assignableTo val.type (cells addr).type then
            Except.ok { var := some addr, value := some val, original := none,
                        applied := false }
          else
            Except.error (SetVarPanic.message
              ("cannot assign " ++ T.name val.type ++ " type to variable type "
                ++ T.name (cells addr).type))), cells) ∧
    (SetVar sampleTypes (Target.pointer 0)
        (some { type := SampleType.int, data := "12345" }) stringCells).1
      = Except.error
          (SetVarPanic.message "cannot assign int type to variable type string") ∧
    (SetVar sampleTypes (Target.pointer 0)
        (some { type := SampleType.funcIntError, data := "func2" }) funcCells).1
      = Except.error (SetVarPanic.message
          "cannot assign func() (int, error) type to variable type func() error") ∧
    (SetVar sampleTypes (Target.pointer 0)
        (some { type := SampleType.funcError, data := "func2" }) funcCells).1
      = Except.ok { var := some 0,
                    value := some { type := SampleType.funcError, data := "func2" },
                    original := none, applied := false } := by
  refine ⟨rfl, ?_, rfl, rfl, rfl⟩
  unfold SetVar
  by_cases h : T.assignableTo val.type (cells addr).type = true <;> simp [h]

/-- C18: every patcher is constructed unapplied and with no saved original: SetEnv(name,
value) records that name and that desired value, UnsetEnv(name) that name and an absent
desired value, Log(sink) that desired sink, and a SetVar that succeeds the cell and the
desired value, with the zero Value as saved original.  SetEnv, UnsetEnv and Log are
functions of their arguments alone; SetVar leaves the cells as they were and depends
on the types of the cells only, not on what they hold. -/
theorem constructors_yield_unapplied_patchers {W Ty D : Type} (name value : String)
    (sink : Option W) (T : GoTypes Ty) (target : Target Ty D) (desired : Option (Dyn Ty D))
    (cells : Nat → Cell Ty D) :
    SetEnv name value
      = { name := name, value := some value, original := none, applied := false } ∧
    UnsetEnv name = { name := name, value := none, original := none, applied := false } ∧
    Log sink = { value := sink, original := none, applied := false } ∧
    (SetVar T target desired cells).2 = cells ∧
    (∀ vs, (SetVar T target desired cells).1 = Except.ok vs →
      vs.applied = false ∧ vs.original = none ∧ vs.value = desired ∧
      ∃ addr, target = Target.pointer addr ∧ vs.var = some addr) ∧
    (∀ cells2 : Nat → Cell Ty D, (∀ a, (cells2 a).type = (cells a).type) →
      (SetVar T target desired cells2).1 = (SetVar T target desired cells).1) := by
  refine ⟨rfl, rfl, rfl, ?_, ?_, ?_⟩
  · unfold SetVar
    cases target <;> try rfl
    cases desired with
    | none => rfl
    | some val =>
      simp only
      split <;> rfl
  · intro vs h
    unfold SetVar at h
    cases target with
    | nil => simp at h
    | notPointer v => simp at h
    | nilPointer e => simp at h
    | pointer addr =>
      cases desired with
      | none => simp at h
      | some val =>
        simp only at h
        split at h
        · simp only [Except.ok.injEq] at h
          subst h
          exact ⟨rfl, rfl, rfl, addr, rfl, rfl⟩
        · simp at h
  · intro cells2 h
    unfold SetVar
    cases target <;> try rfl
    cases desired with
    | none => rfl
    | some val =>
      simp only [h]
      split <;> rfl

/-! ### VariableSetter on a cell -/

/-- C12, at the cell the code fails on: with `var w io.Writer` holding nil and
`SetVar(&w, buf)`, the constructor succeeds, Install saves the zero Value as the
original and makes the cell hold `buf`, and the following Restore panics inside
`reflect.Value.Set`, leaving the cell holding `buf` and the setter applied, where the
claim has the cell hold nil again.  With `v == "unpatched"` and `SetVar(&v, "patched")`
the cell holds "patched" after Install and "unpatched" after Restore. -/
theorem VariableSetter.Restore_panics_on_a_nil_interface_original :
    (SetVar sampleTypes (Target.pointer 0)
      (some { type := SampleType.bytesBuffer, data := "buf" }) nilWriterCells).1
      = Except.ok writerSetter ∧
    (VariableSetter.Install sampleTypes writerSetter nilWriterCells).1 = none ∧
    (VariableSetter.Install sampleTypes writerSetter nilWriterCells).2.1
      = { writerSetter with original := none, applied := true } ∧
    ((VariableSetter.Install sampleTypes writerSetter nilWriterCells).2.2 0).contents
      = Contents.boxed (some { type := SampleType.bytesBuffer, data := "buf" }) ∧
    (callThen (VariableSetter.Install sampleTypes) (VariableSetter.Restore sampleTypes)
      writerSetter nilWriterCells).1 = some (SetVarPanic.valueError "reflect.Value.Set") ∧
    (callThen (VariableSetter.Install sampleTypes) (VariableSetter.Restore sampleTypes)
      writerSetter nilWriterCells).2.1.applied = true ∧
    ((callThen (VariableSetter.Install sampleTypes) (VariableSetter.Restore sampleTypes)
      writerSetter nilWriterCells).2.2 0).contents
      = Contents.boxed (some { type := SampleType.bytesBuffer, data := "buf" }) ∧
    ((callThen (VariableSetter.Install sampleTypes) (VariableSetter.Restore sampleTypes)
      writerSetter nilWriterCells).2.2 0).contents ≠ (nilWriterCells 0).contents ∧
    ((VariableSetter.Install sampleTypes stringSetter stringCells).2.2 0).contents
      = Contents.raw "patched" ∧
    ((callThen (VariableSetter.Install sampleTypes) (VariableSetter.Restore sampleTypes)
      stringSetter stringCells).2.2 0).contents = Contents.raw "unpatched" := by
  refine ⟨rfl, rfl, rfl, rfl, rfl, rfl, rfl, by decide, rfl, rfl⟩

/-- C20, at the cell the code fails on: for the setter constructed by `SetVar(&w, buf)` on
`var w io.Writer` holding nil, the sequence Install, Restore does not complete: Restore
panics inside `reflect.Value.Set`, called with the zero Value that Install saved. -/
theorem VariableSetter.run_aborts_on_a_nil_interface_cell :
    (SetVar sampleTypes (Target.pointer 0)
      (some { type := SampleType.bytesBuffer, data := "buf" }) nilWriterCells).1
      = Except.ok writerSetter ∧
    (VariableSetter.run sampleTypes [Op.Install] writerSetter nilWriterCells).1 = none ∧
    (VariableSetter.run sampleTypes [Op.Install, Op.Restore] writerSetter nilWriterCells).1
      = some (SetVarPanic.valueError "reflect.Value.Set") := by
  refine ⟨rfl, rfl, rfl⟩

theorem VariableSetter.Restore_original {Ty D : Type} (T : GoTypes Ty)
    (vs : VariableSetter Ty D) (cells : Nat → Cell Ty D) :
    (VariableSetter.Restore T vs cells).2.1.original = vs.original := by
  unfold VariableSetter.Restore
  by_cases ha : vs.applied = true
  · simp only [ha, if_true]
    cases vs.var with
    | none => rfl
    | some addr =>
      simp only
      cases (cells addr).Set T vs.original <;> rfl
  · simp [ha]

theorem VariableSetter.run_of_no_Install {Ty D : Type} (T : GoTypes Ty) (ops : List Op)
    (vs : VariableSetter Ty D) (cells : Nat → Cell Ty D) (hun : vs.applied = false)
    (hops : Op.Install ∉ ops) : VariableSetter.run T ops vs cells = (none, vs, cells) := by
  induction ops with
  | nil => rfl
  | cons op ops ih =>
    cases op with
    | Install => exact absurd (List.mem_cons_self _ _) hops
    | Restore =>
      simp only [VariableSetter.run, VariableSetter.setter_Restore_unapplied T vs cells hun]
      exact ih (fun h => hops (List.mem_cons_of_mem _ h))

/-- C19, as the code has it: in every state of a VariableSetter reached from a SetVar that
succeeded by a sequence of Install and Restore calls, the saved original is valid only
if the sequence contains an Install: it is the zero Value at construction and as long as
only Restore has been called.  Restore never changes the saved original, and a Restore
that returns leaves every field but the applied flag as it was, so that after an Install
followed by a Restore the setter is unapplied and keeps the value Install saved. -/
theorem VariableSetter.original_is_valid_only_after_an_Install {Ty D : Type} (T : GoTypes Ty)
    (target : Target Ty D) (desired : Option (Dyn Ty D)) (cells : Nat → Cell Ty D)
    (vs : VariableSetter Ty D) (h : (SetVar T target desired cells).1 = Except.ok vs)
    (ops : List Op) :
    vs.original = none ∧ vs.applied = false ∧
    ((VariableSetter.run T ops vs cells).2.1.original.isSome = true → Op.Install ∈ ops) ∧
    (∀ (vs1 : VariableSetter Ty D) (cells1 : Nat → Cell Ty D),
      (VariableSetter.Restore T vs1 cells1).2.1.original = vs1.original) ∧
    (∀ (vs1 : VariableSetter Ty D) (cells1 : Nat → Cell Ty D),
      (VariableSetter.Restore T vs1 cells1).1 = none →
      (VariableSetter.Restore T vs1 cells1).2.1 = { vs1 with applied := false }) := by
  have hfresh : vs.original = none ∧ vs.applied = false := by
    unfold SetVar at h
    cases target with
    | nil => simp at h
    | notPointer v => simp at h
    | nilPointer e => simp at h
    | pointer addr =>
      cases desired with
      | none => simp at h
      | some val =>
        simp only at h
        split at h
        · simp only [Except.ok.injEq] at h
          subst h
          exact ⟨rfl, rfl⟩
        · simp at h
  refine ⟨hfresh.1, hfresh.2, ?_, VariableSetter.Restore_original T, ?_⟩
  · intro hvalid
    by_contra hno
    rw [VariableSetter.run_of_no_Install T ops vs cells hfresh.2 hno, hfresh.1] at hvalid
    simp at hvalid
  · intro vs1 cells1 hret
    unfold VariableSetter.Restore at hret ⊢
    by_cases ha : vs1.applied = true
    · simp only [ha, if_true] at hret ⊢
      cases hv : vs1.var with
      | none => simp [hv] at hret
      | some addr =>
        simp only [hv] at hret ⊢
        cases hs : (cells1 addr).Set T vs1.original with
        | error e => simp [hs] at hret
        | ok c => rfl
    · have hf : vs1.applied = false := by simpa using ha
      simp only [hf, Bool.false_eq_true, if_false]
      cases vs1
      simp_all

/-- Witness for C19 as amended: `SetVar(&variable, "patched")`, then Install, Restore. -/
theorem VariableSetter.original_is_valid_only_after_an_Install_witness :
    (SetVar sampleTypes (Target.pointer 0)
      (some { type := SampleType.string, data := "patched" }) stringCells).1
      = Except.ok stringSetter ∧
    stringSetter.original = none ∧ stringSetter.applied = false ∧
    ((VariableSetter.run sampleTypes [Op.Install, Op.Restore] stringSetter
        stringCells).2.1.original.isSome = true → Op.Install ∈ [Op.Install, Op.Restore]) :=
  ⟨rfl,
    (VariableSetter.original_is_valid_only_after_an_Install sampleTypes (Target.pointer 0)
      (some { type := SampleType.string, data := "patched" }) stringCells stringSetter rfl
      [Op.Install, Op.Restore]).1,
    (VariableSetter.original_is_valid_only_after_an_Install sampleTypes (Target.pointer 0)
      (some { type := SampleType.string, data := "patched" }) stringCells stringSetter rfl
      [Op.Install, Op.Restore]).2.1,
    (VariableSetter.original_is_valid_only_after_an_Install sampleTypes (Target.pointer 0)
      (some { type := SampleType.string, data := "patched" }) stringCells stringSetter rfl
      [Op.Install, Op.Restore]).2.2.1⟩

/-- C19 as stated fails: after `SetVar(&variable, "patched")`, Install and Restore, the
setter is unapplied and its saved original is valid, holding "unpatched". -/
theorem VariableSetter.original_stays_valid_after_Restore :
    (SetVar sampleTypes (Target.pointer 0)
      (some { type := SampleType.string, data := "patched" }) stringCells).1
      = Except.ok stringSetter ∧
    (VariableSetter.run sampleTypes [Op.Install, Op.Restore] stringSetter stringCells).1
      = none ∧
    (VariableSetter.run sampleTypes [Op.Install, Op.Restore] stringSetter
      stringCells).2.1.applied = false ∧
    (VariableSetter.run sampleTypes [Op.Install, Op.Restore] stringSetter
      stringCells).2.1.original = some { type := SampleType.string, data := "unpatched" } ∧
    ¬ ((VariableSetter.run sampleTypes [Op.Install, Op.Restore] stringSetter
        stringCells).2.1.original.isSome = true →
      (VariableSetter.run sampleTypes [Op.Install, Op.Restore] stringSetter
        stringCells).2.1.applied = true) := by
  refine ⟨rfl, rfl, rfl, rfl, ?_⟩
  intro h
  exact absurd (h rfl) (by decide)

/-! ### VariableSetter on a cell that does not hold a nil interface -/

theorem Cell.Set_of_assignable {Ty D : Type} (T : GoTypes Ty) (c : Cell Ty D) (v : Dyn Ty D)
    (h : T.assignableTo v.type c.type = true) :
    ∃ c1, c.Set T (some v) = Except.ok c1 ∧ c1.type = c.type ∧ c1.wellFormed T = true ∧
      c1.contents ≠ Contents.boxed none ∧
      c1.contents = (if T.isInterface c.type then Contents.boxed (some v)
        else Contents.raw v.data) := by
  unfold Cell.Set
  by_cases hi : T.isInterface c.type = true
  · refine ⟨{ c with contents := Contents.boxed (some v) }, by simp [h, hi], rfl, ?_, ?_, ?_⟩
    · simp [Cell.wellFormed, hi, h]
    · simp
    · simp [hi]
  · refine ⟨{ c with contents := Contents.raw v.data }, by simp [h, hi], rfl, ?_, ?_, ?_⟩
    · simpa [Cell.wellFormed] using hi
    · simp
    · simp [hi]

theorem Cell.valueOfInterface_of_held {Ty D : Type} (T : GoTypes Ty)
    (hrefl : ∀ t, T.assignableTo t t = true) (c : Cell Ty D)
    (hwf : c.wellFormed T = true) (hnn : c.contents ≠ Contents.boxed none) :
    ∃ o, c.valueOfInterface = some o ∧ T.assignableTo o.type c.type = true ∧
      c.contents = (if T.isInterface c.type then Contents.boxed (some o)
        else Contents.raw o.data) := by
  unfold Cell.valueOfInterface
  unfold Cell.wellFormed at hwf
  cases hc : c.contents with
  | raw d =>
    rw [hc] at hwf
    refine ⟨{ type := c.type, data := d }, rfl, hrefl _, ?_⟩
    have : T.isInterface c.type = false := by simpa using hwf
    simp [this]
  | boxed v =>
    cases v with
    | none => exact absurd hc hnn
    | some o =>
      rw [hc] at hwf
      simp only [Bool.and_eq_true] at hwf
      exact ⟨o, rfl, hwf.2, by simp [hwf.1]⟩

/-- Apart from the nil interface, the round trip of C12 holds: for a setter as SetVar
constructs it, on a well-formed cell that does not hold a nil interface, Install returns
with the cell holding the desired value, and the following Restore returns with every
cell holding what it held before Install. -/
theorem VariableSetter.roundtrip_of_held {Ty D : Type} (T : GoTypes Ty)
    (hrefl : ∀ t, T.assignableTo t t = true) (vs : VariableSetter Ty D)
    (cells : Nat → Cell Ty D) (addr : Nat) (val : Dyn Ty D)
    (hvar : vs.var = some addr) (hval : vs.value = some val) (hun : vs.applied = false)
    (hasg : T.assignableTo val.type (cells addr).type = true)
    (hwf : (cells addr).wellFormed T = true)
    (hnn : (cells addr).contents ≠ Contents.boxed none) :
    (VariableSetter.Install T vs cells).1 = none ∧
    ((VariableSetter.Install T vs cells).2.2 addr).contents
      = (if T.isInterface (cells addr).type then Contents.boxed (some val)
        else Contents.raw val.data) ∧
    callThen (VariableSetter.Install T) (VariableSetter.Restore T) vs cells
      = (none, { vs with original := (cells addr).valueOfInterface, applied := false },
          cells) := by
  obtain ⟨c1, hset, hty, _, _, hc1⟩ := Cell.Set_of_assignable T (cells addr) val hasg
  obtain ⟨o, ho, hoasg, hoc⟩ := Cell.valueOfInterface_of_held T hrefl (cells addr) hwf hnn
  have hI : VariableSetter.Install T vs cells
      = (none, { vs with original := (cells addr).valueOfInterface, applied := true },
          Function.update cells addr c1) := by
    unfold VariableSetter.Install
    simp [hun, hvar, hval, hset]
  have hoasg1 : T.assignableTo o.type c1.type = true := by rw [hty]; exact hoasg
  obtain ⟨c2, hset2, hty2, _, _, hc2⟩ := Cell.Set_of_assignable T c1 o hoasg1
  have hc2eq : c2 = cells addr := by
    have h1 : c2.type = (cells addr).type := by rw [hty2, hty]
    have h2 : c2.contents = (cells addr).contents := by rw [hc2, hty, hoc]
    cases c2
    cases hca : cells addr
    rw [hca] at h1 h2
    simp only at h1 h2
    rw [h1, h2]
  refine ⟨by rw [hI], ?_, ?_⟩
  · rw [hI]
    simp only [Function.update_same]
    exact hc1
  · unfold callThen
    rw [hI]
    simp only
    unfold VariableSetter.Restore
    simp only [if_true, hvar, Function.update_same, ho, hset2, hc2eq]
    simp [Function.update_idem, Function.update_eq_self]

/-- Apart from the nil interface, the safety of C20 holds: for a setter as SetVar
constructs it, on a well-formed cell that does not hold a nil interface, no sequence of
Install and Restore calls panics. -/
theorem VariableSetter.run_returns_of_held {Ty D : Type} (T : GoTypes Ty)
    (hrefl : ∀ t, T.assignableTo t t = true) (addr : Nat) (val : Dyn Ty D) (ops : List Op) :
    ∀ (vs : VariableSetter Ty D) (cells : Nat → Cell Ty D),
      vs.var = some addr → vs.value = some val →
      T.assignableTo val.type (cells addr).type = true →
      (cells addr).wellFormed T = true → (cells addr).contents ≠ Contents.boxed none →
      (vs.applied = true →
        ∃ o, vs.original = some o ∧ T.assignableTo o.type (cells addr).type = true) →
      (VariableSetter.run T ops vs cells).1 = none := by
  induction ops with
  | nil => intros; rfl
  | cons op ops ih =>
    intro vs cells hvar hval hasg hwf hnn happ
    cases op with
    | Install =>
      simp only [VariableSetter.run]
      cases ha : vs.applied with
      | true =>
        rw [VariableSetter.setter_Install_applied T vs cells ha]
        exact ih vs cells hvar hval hasg hwf hnn happ
      | false =>
        obtain ⟨c1, hset, hty, hwf1, hnn1, _⟩ :=
          Cell.Set_of_assignable T (cells addr) val hasg
        obtain ⟨o, ho, hoasg, _⟩ :=
          Cell.valueOfInterface_of_held T hrefl (cells addr) hwf hnn
        have hI : VariableSetter.Install T vs cells
            = (none, { vs with original := (cells addr).valueOfInterface, applied := true },
                Function.update cells addr c1) := by
          unfold VariableSetter.Install
          simp [ha, hvar, hval, hset]
        rw [hI]
        refine ih _ _ hvar hval ?_ ?_ ?_ ?_
        · simpa [Function.update_same, hty] using hasg
        · simpa [Function.update_same] using hwf1
        · simpa [Function.update_same] using hnn1
        · intro _
          refine ⟨o, ho, ?_⟩
          simpa [Function.update_same, hty] using hoasg
    | Restore =>
      simp only [VariableSetter.run]
      cases ha : vs.applied with
      | false =>
        rw [VariableSetter.setter_Restore_unapplied T vs cells ha]
        exact ih vs cells hvar hval hasg hwf hnn happ
      | true =>
        obtain ⟨o, ho, hoasg⟩ := happ ha
        obtain ⟨c2, hset, hty, hwf2, hnn2, _⟩ :=
          Cell.Set_of_assignable T (cells addr) o hoasg
        have hR : VariableSetter.Restore T vs cells
            = (none, { vs with applied := false }, Function.update cells addr c2) := by
          unfold VariableSetter.Restore
          simp [ha, hvar, ho, hset]
        rw [hR]
        refine ih _ _ hvar hval ?_ ?_ ?_ ?_
        · simpa [Function.update_same, hty] using hasg
        · simpa [Function.update_same] using hwf2
        · simpa [Function.update_same] using hnn2
        · intro h
          simp at h

/-! ### Idempotence of a master of patchers of this package -/

theorem runAll_le {ε σ : Type} (le : σ → σ → Prop) (hrefl : ∀ s, le s s)
    (htrans : ∀ a b c, le a b → le b c → le a c) (fs : List (σ → Option ε × σ))
    (hm : ∀ f ∈ fs, ∀ s, le s (f s).2) (s : σ) : le s (runAll fs s).2 := by
  induction fs generalizing s with
  | nil => exact hrefl s
  | cons f fs ih =>
    have hf := hm f (List.mem_cons_self _ _) s
    simp only [runAll]
    rcases hfs : f s with ⟨r, s1⟩
    rw [hfs] at hf
    cases r with
    | some e => exact hf
    | none =>
      exact htrans _ _ _ hf (ih (fun g hg => hm g (List.mem_cons_of_mem _ hg)) s1)

theorem runAll_settles {ε σ : Type} (le : σ → σ → Prop) (hrefl : ∀ s, le s s)
    (htrans : ∀ a b c, le a b → le b c → le a c) (fs : List (σ → Option ε × σ))
    (hm : ∀ f ∈ fs, ∀ s, le s (f s).2)
    (hs : ∀ f ∈ fs, ∀ s, (f s).1 = none → ∀ t, le (f s).2 t → f t = (none, t)) (s : σ)
    (hret : (runAll fs s).1 = none) (t : σ) (ht : le (runAll fs s).2 t) :
    runAll fs t = (none, t) := by
  induction fs generalizing s with
  | nil => rfl
  | cons f fs ih =>
    obtain ⟨hf, heq⟩ := runAll_cons_returns f fs s hret
    rw [heq] at hret ht
    have hmid : le (f s).2 (runAll fs (f s).2).2 :=
      runAll_le le hrefl htrans fs (fun g hg => hm g (List.mem_cons_of_mem _ hg)) _
    have hft : f t = (none, t) :=
      hs f (List.mem_cons_self _ _) s hf t (htrans _ _ _ hmid ht)
    simp only [runAll, hft]
    exact ih (fun g hg => hm g (List.mem_cons_of_mem _ hg))
      (fun g hg => hs g (List.mem_cons_of_mem _ hg)) (f s).2 hret ht

theorem PatchMaster.asPatcher_Install {ε σ : Type} (pm : PatchMaster ε σ) (s : σ) :
    pm.asPatcher.Install s = runAll (pm.patches.map Patcher.Install) s := by
  show ((pm.Install s).1.panicValue, (pm.Install s).2) = _
  unfold PatchMaster.Install
  rw [installLoop_eq_runAll]
  rcases runAll (pm.patches.map Patcher.Install) s with ⟨r, s1⟩
  cases r <;> rfl

theorem PatchMaster.asPatcher_Restore {ε σ : Type} (pm : PatchMaster ε σ) (s : σ) :
    pm.asPatcher.Restore s = runAll (pm.patches.reverse.map Patcher.Restore) s := by
  show ((pm.Restore s).1.panicValue, (pm.Restore s).2) = _
  unfold PatchMaster.Restore
  rw [PatchMaster.restoreLoop_full]
  rcases runAll (pm.patches.reverse.map Patcher.Restore) s with ⟨r, s1⟩
  cases r <;> rfl

theorem World.flagsLe_refl {Ω Ty D W : Type} (w : World Ω Ty D W) : w.flagsLe w :=
  ⟨fun _ h => h, fun _ h => h, fun _ h => h⟩

theorem World.flagsLe_trans {Ω Ty D W : Type} (a b c : World Ω Ty D W)
    (hab : a.flagsLe b) (hbc : b.flagsLe c) : a.flagsLe c :=
  ⟨fun x h => hbc.1 x (hab.1 x h), fun x h => hbc.2.1 x (hab.2.1 x h),
    fun x h => hbc.2.2 x (hab.2.2 x h)⟩

theorem EnvPatcher.Install_keeps_applied {ε Ω : Type} (ops : EnvOps ε Ω) (ep : EnvPatcher)
    (w : Ω) (h : ep.applied = true) : (EnvPatcher.Install ops ep w).2.1.applied = true := by
  rw [EnvPatcher.Install_applied ops ep w h]
  exact h

theorem EnvPatcher.Restore_applied_only_if {ε Ω : Type} (ops : EnvOps ε Ω) (ep : EnvPatcher)
    (w : Ω) (h : (EnvPatcher.Restore ops ep w).2.1.applied = true) : ep.applied = true := by
  cases ha : ep.applied with
  | true => rfl
  | false =>
    rw [EnvPatcher.Restore_unapplied ops ep w ha] at h
    rw [ha] at h
    exact h

theorem VariableSetter.setter_Install_keeps_applied {Ty D : Type} (T : GoTypes Ty)
    (vs : VariableSetter Ty D) (cells : Nat → Cell Ty D) (h : vs.applied = true) :
    (VariableSetter.Install T vs cells).2.1.applied = true := by
  rw [VariableSetter.setter_Install_applied T vs cells h]
  exact h

theorem VariableSetter.setter_Restore_applied_only_if {Ty D : Type} (T : GoTypes Ty)
    (vs : VariableSetter Ty D) (cells : Nat → Cell Ty D)
    (h : (VariableSetter.Restore T vs cells).2.1.applied = true) : vs.applied = true := by
  cases ha : vs.applied with
  | true => rfl
  | false =>
    rw [VariableSetter.setter_Restore_unapplied T vs cells ha] at h
    rw [ha] at h
    exact h

theorem LogPatcher.Install_applied_eq {W : Type} (lp : LogPatcher W) (out : Option W) :
    (LogPatcher.Install lp out).1.applied = true ∧
    (lp.applied = true → LogPatcher.Install lp out = (lp, out)) := by
  unfold LogPatcher.Install
  cases ha : lp.applied <;> simp [ha]

theorem LogPatcher.Restore_applied_eq {W : Type} (lp : LogPatcher W) (out : Option W) :
    (LogPatcher.Restore lp out).1.applied = false ∧
    (lp.applied = false → LogPatcher.Restore lp out = (lp, out)) := by
  unfold LogPatcher.Restore
  cases ha : lp.applied <;> simp [ha]

theorem EnvPatcher.ptr_Install_of_applied {ε Ω Ty D W : Type} (ops : EnvOps ε Ω) (a : Nat)
    (t : World Ω Ty D W) (h : (t.envPatchers a).applied = true) :
    (EnvPatcher.ptr ops a).Install t = (none, t) := by
  show ((EnvPatcher.Install ops (t.envPatchers a) t.env).1.map LibPanic.env, _) = _
  rw [EnvPatcher.Install_applied ops _ _ h]
  simp only [Option.map_none', Function.update_eq_self]

theorem EnvPatcher.ptr_Restore_of_unapplied {ε Ω Ty D W : Type} (ops : EnvOps ε Ω) (a : Nat)
    (t : World Ω Ty D W) (h : (t.envPatchers a).applied = false) :
    (EnvPatcher.ptr ops a).Restore t = (none, t) := by
  show ((EnvPatcher.Restore ops (t.envPatchers a) t.env).1.map LibPanic.env, _) = _
  rw [EnvPatcher.Restore_unapplied ops _ _ h]
  simp only [Option.map_none', Function.update_eq_self]

theorem VariableSetter.setter_ptr_Install_of_applied {ε Ω Ty D W : Type} (T : GoTypes Ty) (a : Nat)
    (t : World Ω Ty D W) (h : (t.varSetters a).applied = true) :
    (VariableSetter.ptr T a : Patcher (LibPanic ε) (World Ω Ty D W)).Install t = (none, t) := by
  show ((VariableSetter.Install T (t.varSetters a) t.cells).1.map LibPanic.setvar, _) = _
  rw [VariableSetter.setter_Install_applied T _ _ h]
  simp only [Option.map_none', Function.update_eq_self]

theorem VariableSetter.setter_ptr_Restore_of_unapplied {ε Ω Ty D W : Type} (T : GoTypes Ty) (a : Nat)
    (t : World Ω Ty D W) (h : (t.varSetters a).applied = false) :
    (VariableSetter.ptr T a : Patcher (LibPanic ε) (World Ω Ty D W)).Restore t = (none, t) := by
  show ((VariableSetter.Restore T (t.varSetters a) t.cells).1.map LibPanic.setvar, _) = _
  rw [VariableSetter.setter_Restore_unapplied T _ _ h]
  simp only [Option.map_none', Function.update_eq_self]

theorem LogPatcher.log_ptr_Install_of_applied {ε Ω Ty D W : Type} (a : Nat)
    (t : World Ω Ty D W) (h : (t.logPatchers a).applied = true) :
    (LogPatcher.ptr a : Patcher (LibPanic ε) (World Ω Ty D W)).Install t = (none, t) := by
  show ((none : Option (LibPanic ε)), _) = _
  rw [(LogPatcher.Install_applied_eq (t.logPatchers a) t.logger).2 h]
  simp only [Function.update_eq_self]

theorem LogPatcher.log_ptr_Restore_of_unapplied {ε Ω Ty D W : Type} (a : Nat)
    (t : World Ω Ty D W) (h : (t.logPatchers a).applied = false) :
    (LogPatcher.ptr a : Patcher (LibPanic ε) (World Ω Ty D W)).Restore t = (none, t) := by
  show ((none : Option (LibPanic ε)), _) = _
  rw [(LogPatcher.Restore_applied_eq (t.logPatchers a) t.logger).2 h]
  simp only [Function.update_eq_self]

/-- What makes a master of patchers of this package idempotent: Install of such a patcher
clears no applied flag and, once it has returned, is without effect in every world whose
applied flags include those it left; Restore sets no applied flag and, once it has
returned, is without effect in every world whose applied flags are among those it
left. -/
theorem LibraryPatcher.settles {ε Ω Ty D W : Type} {ops : EnvOps ε Ω} {T : GoTypes Ty}
    {p : Patcher (LibPanic ε) (World Ω Ty D W)} (h : LibraryPatcher ops T p) :
    (∀ w : World Ω Ty D W, w.flagsLe (p.Install w).2) ∧
    (∀ w : World Ω Ty D W, (p.Install w).1 = none →
      ∀ t : World Ω Ty D W, (p.Install w).2.flagsLe t → p.Install t = (none, t)) ∧
    (∀ w : World Ω Ty D W, (p.Restore w).2.flagsLe w) ∧
    (∀ w : World Ω Ty D W, (p.Restore w).1 = none →
      ∀ t : World Ω Ty D W, t.flagsLe (p.Restore w).2 → p.Restore t = (none, t)) := by
  induction h with
  | env a =>
    refine ⟨?_, ?_, ?_, ?_⟩
    · intro w
      refine ⟨?_, fun _ h => h, fun _ h => h⟩
      intro b hb
      show (Function.update w.envPatchers a _ b).applied = true
      by_cases hba : b = a
      · subst hba
        rw [Function.update_same]
        exact EnvPatcher.Install_keeps_applied ops _ _ hb
      · rw [Function.update_noteq hba]
        exact hb
    · intro w hret t ht
      apply EnvPatcher.ptr_Install_of_applied
      apply ht.1 a
      show (Function.update w.envPatchers a _ a).applied = true
      rw [Function.update_same]
      apply EnvPatcher.Install_returns_applied
      exact Option.map_eq_none'.1 hret
    · intro w
      refine ⟨?_, fun _ h => h, fun _ h => h⟩
      intro b hb
      have hb1 : (Function.update w.envPatchers a
          (EnvPatcher.Restore ops (w.envPatchers a) w.env).2.1 b).applied = true := hb
      by_cases hba : b = a
      · subst hba
        rw [Function.update_same] at hb1
        exact EnvPatcher.Restore_applied_only_if ops _ _ hb1
      · rw [Function.update_noteq hba] at hb1
        exact hb1
    · intro w hret t ht
      apply EnvPatcher.ptr_Restore_of_unapplied
      cases hta : (t.envPatchers a).applied with
      | false => rfl
      | true =>
        have h1 : (Function.update w.envPatchers a
            (EnvPatcher.Restore ops (w.envPatchers a) w.env).2.1 a).applied = true :=
          ht.1 a hta
        rw [Function.update_same,
          EnvPatcher.Restore_returns_unapplied ops _ _ (Option.map_eq_none'.1 hret)] at h1
        exact absurd h1 (by decide)
  | var a =>
    refine ⟨?_, ?_, ?_, ?_⟩
    · intro w
      refine ⟨fun _ h => h, ?_, fun _ h => h⟩
      intro b hb
      show (Function.update w.varSetters a _ b).applied = true
      by_cases hba : b = a
      · subst hba
        rw [Function.update_same]
        exact VariableSetter.setter_Install_keeps_applied T _ _ hb
      · rw [Function.update_noteq hba]
        exact hb
    · intro w hret t ht
      apply VariableSetter.setter_ptr_Install_of_applied
      apply ht.2.1 a
      show (Function.update w.varSetters a _ a).applied = true
      rw [Function.update_same]
      apply VariableSetter.setter_Install_returns_applied
      exact Option.map_eq_none'.1 hret
    · intro w
      refine ⟨fun _ h => h, ?_, fun _ h => h⟩
      intro b hb
      have hb1 : (Function.update w.varSetters a
          (VariableSetter.Restore T (w.varSetters a) w.cells).2.1 b).applied = true := hb
      by_cases hba : b = a
      · subst hba
        rw [Function.update_same] at hb1
        exact VariableSetter.setter_Restore_applied_only_if T _ _ hb1
      · rw [Function.update_noteq hba] at hb1
        exact hb1
    · intro w hret t ht
      apply VariableSetter.setter_ptr_Restore_of_unapplied
      cases hta : (t.varSetters a).applied with
      | false => rfl
      | true =>
        have h1 : (Function.update w.varSetters a
            (VariableSetter.Restore T (w.varSetters a) w.cells).2.1 a).applied = true :=
          ht.2.1 a hta
        rw [Function.update_same,
          VariableSetter.setter_Restore_returns_unapplied T _ _ (Option.map_eq_none'.1 hret)] at h1
        exact absurd h1 (by decide)
  | log a =>
    refine ⟨?_, ?_, ?_, ?_⟩
    · intro w
      refine ⟨fun _ h => h, fun _ h => h, ?_⟩
      intro b hb
      show (Function.update w.logPatchers a _ b).applied = true
      by_cases hba : b = a
      · subst hba
        rw [Function.update_same]
        exact (LogPatcher.Install_applied_eq _ _).1
      · rw [Function.update_noteq hba]
        exact hb
    · intro w _ t ht
      apply LogPatcher.log_ptr_Install_of_applied
      apply ht.2.2 a
      show (Function.update w.logPatchers a _ a).applied = true
      rw [Function.update_same]
      exact (LogPatcher.Install_applied_eq _ _).1
    · intro w
      refine ⟨fun _ h => h, fun _ h => h, ?_⟩
      intro b hb
      have hb1 : (Function.update w.logPatchers a
          (LogPatcher.Restore (w.logPatchers a) w.logger).1 b).applied = true := hb
      by_cases hba : b = a
      · subst hba
        rw [Function.update_same, (LogPatcher.Restore_applied_eq _ _).1] at hb1
        exact absurd hb1 (by decide)
      · rw [Function.update_noteq hba] at hb1
        exact hb1
    · intro w _ t ht
      apply LogPatcher.log_ptr_Restore_of_unapplied
      cases hta : (t.logPatchers a).applied with
      | false => rfl
      | true =>
        have h1 : (Function.update w.logPatchers a
            (LogPatcher.Restore (w.logPatchers a) w.logger).1 a).applied = true :=
          ht.2.2 a hta
        rw [Function.update_same, (LogPatcher.Restore_applied_eq _ _).1] at h1
        exact absurd h1 (by decide)
  | master pm _ ih =>
    have hIle : ∀ f ∈ pm.patches.map Patcher.Install, ∀ s : World Ω Ty D W,
        s.flagsLe (f s).2 := by
      intro f hf
      obtain ⟨q, hq, rfl⟩ := List.mem_map.1 hf
      exact (ih q hq).1
    have hIs : ∀ f ∈ pm.patches.map Patcher.Install, ∀ s : World Ω Ty D W,
        (f s).1 = none → ∀ t, (f s).2.flagsLe t → f t = (none, t) := by
      intro f hf
      obtain ⟨q, hq, rfl⟩ := List.mem_map.1 hf
      exact (ih q hq).2.1
    have hRle : ∀ f ∈ pm.patches.reverse.map Patcher.Restore, ∀ s : World Ω Ty D W,
        (f s).2.flagsLe s := by
      intro f hf
      obtain ⟨q, hq, rfl⟩ := List.mem_map.1 hf
      exact (ih q (List.mem_reverse.1 hq)).2.2.1
    have hRs : ∀ f ∈ pm.patches.reverse.map Patcher.Restore, ∀ s : World Ω Ty D W,
        (f s).1 = none → ∀ t, t.flagsLe (f s).2 → f t = (none, t) := by
      intro f hf
      obtain ⟨q, hq, rfl⟩ := List.mem_map.1 hf
      exact (ih q (List.mem_reverse.1 hq)).2.2.2
    refine ⟨?_, ?_, ?_, ?_⟩
    · intro w
      rw [PatchMaster.asPatcher_Install]
      exact runAll_le World.flagsLe World.flagsLe_refl World.flagsLe_trans _ hIle w
    · intro w hret t ht
      rw [PatchMaster.asPatcher_Install] at hret ht ⊢
      exact runAll_settles World.flagsLe World.flagsLe_refl World.flagsLe_trans _ hIle hIs
        w hret t ht
    · intro w
      rw [PatchMaster.asPatcher_Restore]
      exact runAll_le (fun a b => World.flagsLe b a) World.flagsLe_refl
        (fun a b c hab hbc => World.flagsLe_trans c b a hbc hab) _ hRle w
    · intro w hret t ht
      rw [PatchMaster.asPatcher_Restore] at hret ht ⊢
      exact runAll_settles (fun a b => World.flagsLe b a) World.flagsLe_refl
        (fun a b c hab hbc => World.flagsLe_trans c b a hbc hab) _ hRle hRs w hret t ht

theorem runAll_twice {ε σ : Type} (f : σ → Option ε × σ) (s : σ)
    (h : (f s).1 = none → f (f s).2 = (none, (f s).2)) : runAll [f, f] s = f s := by
  simp only [runAll]
  rcases hf : f s with ⟨r, s1⟩
  rw [hf] at h
  cases r with
  | some e => rfl
  | none =>
    simp only
    rw [h rfl]

theorem libMaster_library :
    ∀ p, p ∈ libMaster.patches → LibraryPatcher osEnv sampleTypes p := by
  intro p hp
  simp only [libMaster, NewPatchMaster, List.mem_cons, List.mem_singleton, List.not_mem_nil,
    or_false] at hp
  rcases hp with rfl | rfl | rfl
  · exact LibraryPatcher.env 0
  · exact LibraryPatcher.var 0
  · apply LibraryPatcher.master
    intro q hq
    simp only [NewPatchMaster, List.mem_cons, List.mem_singleton, List.not_mem_nil,
      or_false] at hq
    rcases hq with rfl | rfl
    · exact LibraryPatcher.log 0
    · exact LibraryPatcher.env 0

/-- C16: for every PatchMaster whose patches are patchers of this package (pointers to an
EnvPatcher, a VariableSetter or a LogPatcher in any state, or nested masters of such,
the same object or the same variable possibly met more than once), calling Install
twice in a row yields the same outcome and the same world, that is the same patched
state and the same state of every patcher, as calling it once, and likewise for
Restore: a second call after one that returned changes nothing. -/
theorem PatchMaster.master_Install_and_Restore_are_idempotent {ε Ω Ty D W : Type} (ops : EnvOps ε Ω)
    (T : GoTypes Ty) (pm : PatchMaster (LibPanic ε) (World Ω Ty D W))
    (h : ∀ p, p ∈ pm.patches → LibraryPatcher ops T p) (w : World Ω Ty D W) :
    runAll [pm.asPatcher.Install, pm.asPatcher.Install] w = pm.asPatcher.Install w ∧
    runAll [pm.asPatcher.Restore, pm.asPatcher.Restore] w = pm.asPatcher.Restore w ∧
    ((pm.Install w).1.panicValue = none →
      (pm.Install (pm.Install w).2).1.panicValue = none ∧
      (pm.Install (pm.Install w).2).2 = (pm.Install w).2) ∧
    ((pm.Restore w).1.panicValue = none →
      (pm.Restore (pm.Restore w).2).1.panicValue = none ∧
      (pm.Restore (pm.Restore w).2).2 = (pm.Restore w).2) := by
  obtain ⟨_, hI, _, hR⟩ := (LibraryPatcher.master pm h).settles
  have hI2 : (pm.asPatcher.Install w).1 = none →
      pm.asPatcher.Install (pm.asPatcher.Install w).2 = (none, (pm.asPatcher.Install w).2) :=
    fun hret => hI w hret _ (World.flagsLe_refl _)
  have hR2 : (pm.asPatcher.Restore w).1 = none →
      pm.asPatcher.Restore (pm.asPatcher.Restore w).2 = (none, (pm.asPatcher.Restore w).2) :=
    fun hret => hR w hret _ (World.flagsLe_refl _)
  refine ⟨runAll_twice _ w hI2, runAll_twice _ w hR2, ?_, ?_⟩
  · intro hret
    have := hI2 hret
    exact ⟨congrArg Prod.fst this, (congrArg Prod.snd this : _)⟩
  · intro hret
    have := hR2 hret
    exact ⟨congrArg Prod.fst this, (congrArg Prod.snd this : _)⟩

/-- Witness for C16: a master holding an EnvPatcher, a VariableSetter and a nested master
with a LogPatcher and the same EnvPatcher. -/
theorem PatchMaster.master_Install_and_Restore_are_idempotent_witness :
    (∀ p, p ∈ libMaster.patches → LibraryPatcher osEnv sampleTypes p) ∧
    runAll [libMaster.asPatcher.Install, libMaster.asPatcher.Install] libWorld
      = libMaster.asPatcher.Install libWorld ∧
    runAll [libMaster.asPatcher.Restore, libMaster.asPatcher.Restore]
        (libMaster.asPatcher.Install libWorld).2
      = libMaster.asPatcher.Restore (libMaster.asPatcher.Install libWorld).2 :=
  ⟨libMaster_library,
    (PatchMaster.master_Install_and_Restore_are_idempotent osEnv sampleTypes libMaster
      libMaster_library libWorld).1,
    (PatchMaster.master_Install_and_Restore_are_idempotent osEnv sampleTypes libMaster
      libMaster_library (libMaster.asPatcher.Install libWorld).2).2.1⟩

/-! ### EnvPatcher: failing operations, other variables, reuse -/

/-- C24: when the underlying set or removal operation fails, so that the call panics, the
applied flag is not changed: a failing Install was called on an unapplied patcher and
leaves it unapplied, with its name and desired value, so that a later Restore returns
at once, with no call on a patch point and the world and the patcher left as they were;
a failing Restore was called on an applied patcher and leaves every field of it as it
was, the saved original included, so that calling Restore again is a Restore of the
same patcher. -/
theorem EnvPatcher.failing_call_leaves_the_applied_flag {ε Ω : Type} (ops : EnvOps ε Ω)
    (ep1 ep2 : EnvPatcher) (w1 w2 w : Ω) (log : List (EnvCall ε)) (e1 e2 : ε)
    (hI : (EnvPatcher.Install ops ep1 w1).1 = some e1)
    (hR : (EnvPatcher.Restore ops ep2 w2).1 = some e2) :
    ep1.applied = false ∧
    (EnvPatcher.Install ops ep1 w1).2.1.applied = false ∧
    (EnvPatcher.Install ops ep1 w1).2.1.name = ep1.name ∧
    (EnvPatcher.Install ops ep1 w1).2.1.value = ep1.value ∧
    EnvPatcher.Restore ops.recorded (EnvPatcher.Install ops ep1 w1).2.1 (w, log)
      = (none, (EnvPatcher.Install ops ep1 w1).2.1, (w, log)) ∧
    ep2.applied = true ∧
    (EnvPatcher.Restore ops ep2 w2).2.1 = ep2 ∧
    EnvPatcher.Restore ops (EnvPatcher.Restore ops ep2 w2).2.1 w
      = EnvPatcher.Restore ops ep2 w := by
  have hun : ep1.applied = false := by
    cases ha : ep1.applied with
    | false => rfl
    | true =>
      rw [EnvPatcher.Install_applied ops ep1 w1 ha] at hI
      simp at hI
  have hap : ep2.applied = true := by
    cases ha : ep2.applied with
    | true => rfl
    | false =>
      rw [EnvPatcher.Restore_unapplied ops ep2 w2 ha] at hR
      simp at hR
  have hI2 : (EnvPatcher.Install ops ep1 w1).2.1.applied = false := by
    rw [EnvPatcher.Install_unapplied ops ep1 w1 hun] at hI ⊢
    simp only at hI
    simp [hI]
  have hR2 : (EnvPatcher.Restore ops ep2 w2).2.1 = ep2 := by
    rw [EnvPatcher.Restore_applied ops ep2 w2 hap] at hR ⊢
    simp only at hR
    cases ep2
    simp_all
  refine ⟨hun, hI2, ?_, ?_, EnvPatcher.Restore_unapplied _ _ _ hI2, hap, hR2, by rw [hR2]⟩
  · rw [EnvPatcher.Install_unapplied ops ep1 w1 hun]
  · rw [EnvPatcher.Install_unapplied ops ep1 w1 hun]

/-- Witness for C24: `SetEnv("", "value")`, whose set operation the system refuses, and an
applied patcher on the same name, whose restoring set operation it refuses. -/
theorem EnvPatcher.failing_call_leaves_the_applied_flag_witness :
    (EnvPatcher.Install osEnv (SetEnv "" "value") Environ.empty).1
      = some "setenv: invalid argument" ∧
    (EnvPatcher.Restore osEnv
      { name := "", value := none, original := some "original", applied := true }
      Environ.empty).1 = some "setenv: invalid argument" ∧
    (EnvPatcher.Install osEnv (SetEnv "" "value") Environ.empty).2.1.applied = false ∧
    (EnvPatcher.Restore osEnv
      { name := "", value := none, original := some "original", applied := true }
      Environ.empty).2.1
      = { name := "", value := none, original := some "original", applied := true } :=
  ⟨by decide, by decide,
    (EnvPatcher.failing_call_leaves_the_applied_flag osEnv (SetEnv "" "value")
      { name := "", value := none, original := some "original", applied := true }
      Environ.empty Environ.empty Environ.empty [] "setenv: invalid argument"
      "setenv: invalid argument" (by decide) (by decide)).2.1,
    (EnvPatcher.failing_call_leaves_the_applied_flag osEnv (SetEnv "" "value")
      { name := "", value := none, original := some "original", applied := true }
      Environ.empty Environ.empty Environ.empty [] "setenv: invalid argument"
      "setenv: invalid argument" (by decide) (by decide)).2.2.2.2.2.2.1⟩

theorem osEnv_fails_quietly :
    (∀ n v w, (osEnv.setenv n v w).1 ≠ none → (osEnv.setenv n v w).2 = w) ∧
    (∀ n w, (osEnv.unsetenv n w).1 ≠ none → (osEnv.unsetenv n w).2 = w) := by
  refine ⟨?_, ?_⟩
  · intro n v w h
    by_cases hv : osInvalid n v = true
    · simp [osEnv, hv]
    · simp [osEnv, hv] at h
  · intro n w h
    exact absurd rfl h

theorem EnvOps.Lawful.setEnv_frame {ε Ω : Type} {ops : EnvOps ε Ω}
    {get : Ω → String → Option String} (law : ops.Lawful get)
    (hset : ∀ n v w, (ops.setenv n v w).1 ≠ none → get (ops.setenv n v w).2 = get w)
    (hunset : ∀ n w, (ops.unsetenv n w).1 ≠ none → get (ops.unsetenv n w).2 = get w)
    (n : String) (val : Option String) (w : Ω) (m : String) (hm : m ≠ n) :
    get (setEnv ops n val w).2 m = get w m := by
  cases val with
  | some v =>
    show get (ops.setenv n v w).2 m = get w m
    by_cases hok : (ops.setenv n v w).1 = none
    · rw [law.setenv_get n v w hok m]
      simp [hm]
    · rw [hset n v w hok]
  | none =>
    have hg := law.lookupenv_get n w
    unfold setEnv
    rcases hlk : ops.lookupenv n w with ⟨⟨v, ok⟩, w1⟩
    rw [hlk] at hg
    simp only at hg ⊢
    cases ok with
    | false =>
      show get w1 m = get w m
      rw [hg]
    | true =>
      show get (ops.unsetenv n w1).2 m = get w m
      by_cases hok : (ops.unsetenv n w1).1 = none
      · rw [law.unsetenv_get n w1 hok m, hg]
        simp [hm]
      · rw [hunset n w1 hok, hg]

/-- C22: for every environment, in which a set or removal that returns an error changes
nothing, and every EnvPatcher on the variable name n, in any state, Install and Restore
leave the presence and value of every variable other than n as they were, whether they
return or panic, and they leave the name and the desired value of the patcher as they
were. -/
theorem EnvPatcher.Install_and_Restore_touch_only_the_named_variable {ε Ω : Type}
    (ops : EnvOps ε Ω) (get : Ω → String → Option String) (law : ops.Lawful get)
    (hset : ∀ n v w, (ops.setenv n v w).1 ≠ none → get (ops.setenv n v w).2 = get w)
    (hunset : ∀ n w, (ops.unsetenv n w).1 ≠ none → get (ops.unsetenv n w).2 = get w)
    (ep : EnvPatcher) (w : Ω) :
    (∀ m, m ≠ ep.name → get (EnvPatcher.Install ops ep w).2.2 m = get w m) ∧
    (∀ m, m ≠ ep.name → get (EnvPatcher.Restore ops ep w).2.2 m = get w m) ∧
    (EnvPatcher.Install ops ep w).2.1.name = ep.name ∧
    (EnvPatcher.Install ops ep w).2.1.value = ep.value ∧
    (EnvPatcher.Restore ops ep w).2.1.name = ep.name ∧
    (EnvPatcher.Restore ops ep w).2.1.value = ep.value := by
  cases ha : ep.applied with
  | true =>
    rw [EnvPatcher.Install_applied ops ep w ha, EnvPatcher.Restore_applied ops ep w ha]
    refine ⟨fun _ _ => rfl, ?_, rfl, rfl, rfl, rfl⟩
    intro m hm
    exact law.setEnv_frame hset hunset ep.name ep.original w m hm
  | false =>
    rw [EnvPatcher.Install_unapplied ops ep w ha, EnvPatcher.Restore_unapplied ops ep w ha]
    refine ⟨?_, fun _ _ => rfl, rfl, rfl, rfl, rfl⟩
    intro m hm
    show get (setEnv ops ep.name ep.value (ops.lookupenv ep.name w).2).2 m = get w m
    rw [law.setEnv_frame hset hunset ep.name ep.value _ m hm, law.lookupenv_get]

/-- Witness for C22: `SetEnv("ENV", "value")` installed where `ENV` holds "original"
leaves `HOME` unset, and so does the restoring of an applied patcher. -/
theorem EnvPatcher.Install_and_Restore_touch_only_the_named_variable_witness :
    (EnvPatcher.Install osEnv (SetEnv "ENV" "value") envOriginal).2.2 "HOME"
      = envOriginal "HOME" ∧
    (EnvPatcher.Restore osEnv
      { name := "ENV", value := none, original := some "original", applied := true }
      Environ.empty).2.2 "HOME" = Environ.empty "HOME" ∧
    (EnvPatcher.Install osEnv (SetEnv "ENV" "value") envOriginal).2.1.name = "ENV" :=
  ⟨(EnvPatcher.Install_and_Restore_touch_only_the_named_variable osEnv (fun env => env)
      osEnv_lawful osEnv_fails_quietly.1 osEnv_fails_quietly.2
      (SetEnv "ENV" "value") envOriginal).1 "HOME" (by decide),
    (EnvPatcher.Install_and_Restore_touch_only_the_named_variable osEnv (fun env => env)
      osEnv_lawful osEnv_fails_quietly.1 osEnv_fails_quietly.2
      { name := "ENV", value := none, original := some "original", applied := true }
      Environ.empty).2.1 "HOME" (by decide),
    (EnvPatcher.Install_and_Restore_touch_only_the_named_variable osEnv (fun env => env)
      osEnv_lawful osEnv_fails_quietly.1 osEnv_fails_quietly.2
      (SetEnv "ENV" "value") envOriginal).2.2.1⟩

/-- C23: an EnvPatcher is reusable.  For an unapplied patcher, after a first Install and
Restore, a later Install stores as the original the state the variable has at the time
of that later Install, whatever the first Install had stored and whatever happened to the
environment between the calls, and the Restore that follows makes the variable hold that
state again, as the first Restore made it hold the state found by the first Install;
this when the underlying operations succeed, so that none of the four calls panics. -/
theorem EnvPatcher.later_cycle_captures_the_state_anew {ε Ω : Type} (ops : EnvOps ε Ω)
    (get : Ω → String → Option String) (law : ops.Lawful get) (ep : EnvPatcher)
    (w0 w1 w2 w3 : Ω) (hun : ep.applied = false)
    (h1 : (EnvPatcher.Install ops ep w0).1 = none)
    (h2 : (EnvPatcher.Restore ops (EnvPatcher.Install ops ep w0).2.1 w1).1 = none)
    (h3 : (EnvPatcher.Install ops
      (EnvPatcher.Restore ops (EnvPatcher.Install ops ep w0).2.1 w1).2.1 w2).1 = none)
    (h4 : (EnvPatcher.Restore ops (EnvPatcher.Install ops
      (EnvPatcher.Restore ops (EnvPatcher.Install ops ep w0).2.1 w1).2.1 w2).2.1 w3).1
        = none) :
    get (EnvPatcher.Restore ops (EnvPatcher.Install ops ep w0).2.1 w1).2.2 ep.name
      = get w0 ep.name ∧
    (EnvPatcher.Restore ops (EnvPatcher.Install ops ep w0).2.1 w1).2.1
      = { ep with original := get w0 ep.name, applied := false } ∧
    (EnvPatcher.Install ops
      (EnvPatcher.Restore ops (EnvPatcher.Install ops ep w0).2.1 w1).2.1 w2).2.1
      = { ep with original := get w2 ep.name, applied := true } ∧
    get (EnvPatcher.Restore ops (EnvPatcher.Install ops
      (EnvPatcher.Restore ops (EnvPatcher.Install ops ep w0).2.1 w1).2.1 w2).2.1 w3).2.2
        ep.name = get w2 ep.name ∧
    (EnvPatcher.Restore ops (EnvPatcher.Install ops
      (EnvPatcher.Restore ops (EnvPatcher.Install ops ep w0).2.1 w1).2.1 w2).2.1 w3).2.1
      = { ep with original := get w2 ep.name, applied := false } := by
  obtain ⟨hep1, _⟩ := EnvPatcher.Install_effect law ep w0 hun h1
  rw [hep1] at h2 h3 h4 ⊢
  obtain ⟨hep2, hget2⟩ := EnvPatcher.Restore_effect law _ w1 rfl h2
  rw [hep2] at h3 h4 ⊢
  obtain ⟨hep3, _⟩ := EnvPatcher.Install_effect law _ w2 rfl h3
  rw [hep3] at h4 ⊢
  obtain ⟨hep4, hget4⟩ := EnvPatcher.Restore_effect law _ w3 rfl h4
  refine ⟨?_, rfl, rfl, ?_, hep4⟩
  · rw [hget2 ep.name]
    simp
  · rw [hget4 ep.name]
    simp

/-- Witness for C23: `SetEnv("ENV", "value")` used twice: first where `ENV` holds
"original", then after other code has removed `ENV`; the second cycle ends with `ENV`
absent, not with the "original" of the first cycle. -/
theorem EnvPatcher.later_cycle_captures_the_state_anew_witness :
    (SetEnv "ENV" "value").applied = false ∧
    (EnvPatcher.Install osEnv (SetEnv "ENV" "value") envOriginal).1 = none ∧
    (EnvPatcher.Install osEnv
      (EnvPatcher.Restore osEnv
        (EnvPatcher.Install osEnv (SetEnv "ENV" "value") envOriginal).2.1
        envOriginal).2.1 Environ.empty).2.1
      = { name := "ENV", value := some "value", original := none, applied := true } ∧
    (EnvPatcher.Restore osEnv (EnvPatcher.Install osEnv
      (EnvPatcher.Restore osEnv
        (EnvPatcher.Install osEnv (SetEnv "ENV" "value") envOriginal).2.1
        envOriginal).2.1 Environ.empty).2.1 envOriginal).2.2 "ENV" = none :=
  ⟨rfl, by decide,
    (EnvPatcher.later_cycle_captures_the_state_anew osEnv (fun env => env) osEnv_lawful
      (SetEnv "ENV" "value") envOriginal envOriginal Environ.empty envOriginal rfl
      (by decide) (by decide) (by decide) (by decide)).2.2.1,
    (EnvPatcher.later_cycle_captures_the_state_anew osEnv (fun env => env) osEnv_lawful
      (SetEnv "ENV" "value") envOriginal envOriginal Environ.empty envOriginal rfl
      (by decide) (by decide) (by decide) (by decide)).2.2.2.1⟩

/-! ### Install on a master after Add -/

/-- C21: for every PatchMaster of patchers of this package on which Install has been called
and has returned, in every world in which the patchers it applied are still applied, and
for every patch q: Install on the master as it was is without effect, and after Add(q)
Install on the master yields the same outcome and the same world, that is the same
patched state and the same state of every patcher, as Install called on q alone; a
pointer to a patcher changes no patcher object but its own. -/
theorem PatchMaster.master_Install_after_Add_installs_the_added_patch {ε Ω Ty D W : Type}
    (ops : EnvOps ε Ω) (T : GoTypes Ty) (pm : PatchMaster (LibPanic ε) (World Ω Ty D W))
    (h : ∀ p, p ∈ pm.patches → LibraryPatcher ops T p)
    (q : Patcher (LibPanic ε) (World Ω Ty D W)) (w t : World Ω Ty D W)
    (hret : (pm.asPatcher.Install w).1 = none)
    (ht : (pm.asPatcher.Install w).2.flagsLe t) :
    pm.asPatcher.Install t = (none, t) ∧
    (pm.Add q t).1 = q ∧
    (pm.Add q t).2.1.asPatcher.Install (pm.Add q t).2.2 = q.Install t ∧
    (∀ a b, b ≠ a →
      ((EnvPatcher.ptr ops a : Patcher (LibPanic ε) (World Ω Ty D W)).Install t).2.envPatchers b
        = t.envPatchers b) ∧
    (∀ a,
      ((EnvPatcher.ptr ops a : Patcher (LibPanic ε) (World Ω Ty D W)).Install t).2.varSetters
        = t.varSetters ∧
      ((EnvPatcher.ptr ops a : Patcher (LibPanic ε) (World Ω Ty D W)).Install t).2.logPatchers
        = t.logPatchers) := by
  have hnoop : pm.asPatcher.Install t = (none, t) :=
    (LibraryPatcher.master pm h).settles.2.1 w hret t ht
  refine ⟨hnoop, rfl, ?_, ?_, fun _ => ⟨rfl, rfl⟩⟩
  · rw [PatchMaster.asPatcher_Install] at hnoop ⊢
    show runAll ((pm.patches ++ [q]).map Patcher.Install) t = q.Install t
    rw [List.map_append, runAll_append, hnoop]
    exact runAll_singleton _ _
  · intro a b hba
    exact Function.update_noteq hba _ _

/-- Witness for C21: the master of the scenario, installed, then a fresh
`SetEnv("ENV", "value")` at address 1 added. -/
theorem PatchMaster.master_Install_after_Add_installs_the_added_patch_witness :
    (∀ p, p ∈ libMaster.patches → LibraryPatcher osEnv sampleTypes p) ∧
    (libMaster.asPatcher.Install libWorld).1 = none ∧
    (libMaster.Add (EnvPatcher.ptr osEnv 1)
        (libMaster.asPatcher.Install libWorld).2).2.1.asPatcher.Install
        (libMaster.Add (EnvPatcher.ptr osEnv 1) (libMaster.asPatcher.Install libWorld).2).2.2
      = (EnvPatcher.ptr osEnv 1).Install (libMaster.asPatcher.Install libWorld).2 :=
  ⟨libMaster_library, rfl,
    (PatchMaster.master_Install_after_Add_installs_the_added_patch osEnv sampleTypes
      libMaster libMaster_library (EnvPatcher.ptr osEnv 1) libWorld
      (libMaster.asPatcher.Install libWorld).2 rfl (World.flagsLe_refl _)).2.2.1⟩

/-! ### The slice of a master: Add and the masters that share its array -/

theorem Slice.append_elems {ε σ : Type} (grow : Nat → Nat) (mem : Arrays ε σ) (s : Slice)
    (x : Patcher ε σ) :
    (s.append grow mem x).1.elems (s.append grow mem x).2 = s.elems mem ++ [some x] := by
  unfold Slice.append
  by_cases h : s.len < s.cap
  · simp only [h, if_true, Slice.elems, List.range_succ, List.map_append, List.map_cons,
      List.map_nil, Function.update_same]
    congr 1
    apply List.map_congr_left
    intro i hi
    have hne : i ≠ s.len := Nat.ne_of_lt (List.mem_range.1 hi)
    rw [Function.update_noteq hne]
  · simp only [h, if_false, Slice.elems, List.range_succ, List.map_append, List.map_cons,
      List.map_nil, Function.update_same]
    congr 1
    · apply List.map_congr_left
      intro i hi
      simp [List.mem_range.1 hi]
    · simp

/-- For its receiver, `Add` on the slice is `Add` on the sequence: whatever the arrays
hold and whoever shares them, the master stands, right after the call, with the sequence
it stood with before followed by the patch added. -/
theorem SliceMaster.Add_master {ε σ : Type} (grow : Nat → Nat) (nilError : ε)
    (pm : SliceMaster) (q : Patcher ε σ) (mem : Arrays ε σ) (s : σ) :
    (pm.Add grow q mem).1 = q ∧
    (pm.Add grow q mem).2.1.master nilError (pm.Add grow q mem).2.2
      = ((pm.master nilError mem).Add q s).2.1 := by
  refine ⟨rfl, ?_⟩
  show PatchMaster.mk _ = PatchMaster.mk _
  congr 1
  show ((pm.patches.append grow mem q).1.elems (pm.patches.append grow mem q).2).map _ = _
  rw [Slice.append_elems]
  simp [SliceMaster.master]

/-- Adds made one after the other on one master, with nothing else done to the arrays in
between, leave it standing with the sequence it was constructed on followed by the
patches added, in order. -/
theorem SliceMaster.addAll_master {ε σ : Type} (grow : Nat → Nat) (nilError : ε)
    (qs : List (Patcher ε σ)) (pm : SliceMaster) (mem : Arrays ε σ) :
    ((pm.addAll grow qs mem).1.master nilError (pm.addAll grow qs mem).2).patches
      = (pm.master nilError mem).patches ++ qs := by
  induction qs generalizing pm mem with
  | nil => simp [SliceMaster.addAll]
  | cons q qs ih =>
    simp only [SliceMaster.addAll]
    rw [ih]
    show ((pm.patches.append grow mem q).1.elems (pm.patches.append grow mem q).2).map _ ++ qs
      = _
    rw [Slice.append_elems]
    simp [SliceMaster.master]

/-- C4, at the masters the code fails on: with `base := make([]Patcher, 2, 4)` holding
patch1 and patch2, `pm1 := NewPatchMaster(base...)`, `pm2 := NewPatchMaster(base...)`
and `pm1.Add(patch3)`, an Install made at once runs patch1, patch2, patch3; but after
`pm2.Add(patch4)`, which appends in place into the array both masters share,
`pm1.Install()` runs patch1, patch2, patch4 and `pm1.Restore()` runs patch4, patch2,
patch1, where the claim has patch3 in the place of patch4, which was never added to
pm1. -/
theorem SliceMaster.Install_runs_the_patch_added_to_another_master :
    sharedMaster.patches = { array := 0, len := 3, cap := 4 } ∧
    (sharedMaster.Install "nil"
      ((NewPatchMasterSlice baseSlice).Add (fun c => 2 * c) (OrderPatcher "patch3")
        baseArrays).2.2 []).2 = ["Install patch1", "Install patch2", "Install patch3"] ∧
    (sharedMaster.Install "nil" sharedArrays []).1.returned = true ∧
    (sharedMaster.Install "nil" sharedArrays []).2
      = ["Install patch1", "Install patch2", "Install patch4"] ∧
    (sharedMaster.Restore "nil" sharedArrays []).1.returned = true ∧
    (sharedMaster.Restore "nil" sharedArrays []).2
      = ["Restore patch4", "Restore patch2", "Restore patch1"] ∧
    (sharedMaster.Install "nil" sharedArrays []).2
      ≠ ["Install patch1", "Install patch2", "Install patch3"] := by
  refine ⟨rfl, rfl, rfl, rfl, rfl, rfl, by decide⟩

end patcher
